import Mathlib

/-!
# sbankenSDK: a shallow embedding of the HTTP executor, the token provider
# and the accounts repository

The functions of `sbanken.go`, `authentication/sbankenToken.go` and
`accounts.go` are embedded as Lean functions, statement by statement.

* A Go `string` or `[]byte` is a list of bytes (`GoString`).
* A Go `error` is a value of `GoError`; the nil error is `none`.
* A call that can end other than by returning (a run-time panic, `os.Exit`)
  yields an `Outcome`.
* A method that changes its receiver or an argument returns the new value.
* Of the Go standard library, the parts that decide what the functions do are
  embedded as definitions: the scanner, `checkValid` and `Decoder.readValue`
  of `encoding/json`, the query escaping and `Values` of `net/url`,
  `time.Time.Add`, `base64.StdEncoding`.
* What depends on the network, on URL syntax or on reflection over the
  caller's types (`url.Parse`, `http.Client.Do`, the marshalling of a request
  object and the store of a JSON value into a Go value) is passed in as a
  function, and the theorems hold for every such function.
-/

namespace Sbanken

/-! ## Basic data -/

/-- One byte. -/
abbrev Byte := Fin 256

/-- Go strings and byte slices: sequences of bytes. -/
abbrev GoString := List Byte

/-- The bytes of an ASCII literal. -/
def ascii (s : String) : GoString := s.toList.map (fun ch => Fin.ofNat ch.toNat)

/-- Go error values.  `EOF` and `ErrUnexpectedEOF` are the sentinels of package
`io`; `New text` is the value built by `errors.New(text)`; `SyntaxError` is
`*json.SyntaxError`; `Other` stands for any further error value (transport
failures, `*json.UnmarshalTypeError`, write failures, ...). -/
inductive GoError where
  | EOF
  | ErrUnexpectedEOF
  | New (text : GoString)
  | SyntaxError (msg : GoString) (Offset : Nat)
  | Other (text : GoString)
  deriving DecidableEq, Repr

/-- The `Error()` method. -/
def GoError.Error : GoError → GoString
  | .EOF => ascii "EOF"
  | .ErrUnexpectedEOF => ascii "unexpected EOF"
  | .New text => text
  | .SyntaxError msg _ => msg
  | .Other text => text

/-- How a call ends: it returns, the process exits (`os.Exit`), or the
goroutine panics. -/
inductive Outcome (α : Type) where
  | ret (a : α)
  | exit (code : Nat)
  | panic
  deriving DecidableEq, Repr

/-! ## encoding/json: the scanner (scanner.go) -/

/-- The result codes of a scanner step. -/
inductive Scan where
  | scanContinue | scanBeginLiteral | scanBeginObject | scanObjectKey
  | scanObjectValue | scanEndObject | scanBeginArray | scanArrayValue
  | scanEndArray | scanSkipSpace | scanEnd | scanError
  deriving DecidableEq, Repr

/-- The entries of the scanner's parse stack. -/
inductive ParseState where
  | parseObjectKey | parseObjectValue | parseArrayValue
  deriving DecidableEq, Repr

/-- The step functions a scanner can be in. -/
inductive Step where
  | stateBeginValueOrEmpty | stateBeginValue | stateBeginStringOrEmpty
  | stateBeginString | stateEndValue | stateEndTop
  | stateInString | stateInStringEsc | stateInStringEscU
  | stateInStringEscU1 | stateInStringEscU12 | stateInStringEscU123
  | stateNeg | state1 | state0 | stateDot | stateDot0 | stateE | stateESign
  | stateE0 | stateT | stateTr | stateTru | stateF | stateFa | stateFal
  | stateFals | stateN | stateNu | stateNul | stateError
  deriving DecidableEq, Repr

/-- The JSON scanner.  `parseState` is the stack of open composites, the
innermost one first. -/
structure scanner where
  step : Step
  endTop : Bool
  parseState : List ParseState
  err : Option GoError
  bytes : Nat
  deriving DecidableEq, Repr

def maxNestingDepth : Nat := 10000

def isSpace (c : Byte) : Bool :=
  decide (c ≤ 32) && (c = 32 || c = 9 || c = 13 || c = 10)

def lowerhex (n : Nat) : Byte :=
  if n < 10 then Fin.ofNat (48 + n) else Fin.ofNat (87 + n)

/-- The printable code points below 256 (`strconv.IsPrint`). -/
def isPrintLatin1 (c : Byte) : Bool :=
  (decide (32 ≤ c.val) && decide (c.val ≤ 126)) ||
    (decide (161 ≤ c.val) && decide (c.val ≠ 173))

/-- UTF-8 encoding of a code point below 256. -/
def utf8Latin1 (c : Byte) : GoString :=
  if c.val < 128 then [c] else [Fin.ofNat (192 + c.val / 64), Fin.ofNat (128 + c.val % 64)]

/-- The function `quoteChar`: the byte as a quoted character literal. -/
def quoteChar (c : Byte) : GoString :=
  if c = 39 then ascii "'\\''"
  else if c = 34 then ascii "'\"'"
  else
    let body : GoString :=
      if c = 92 then ascii "\\\\"
      else if isPrintLatin1 c then utf8Latin1 c
      else if c = 7 then ascii "\\a"
      else if c = 8 then ascii "\\b"
      else if c = 12 then ascii "\\f"
      else if c = 10 then ascii "\\n"
      else if c = 13 then ascii "\\r"
      else if c = 9 then ascii "\\t"
      else if c = 11 then ascii "\\v"
      else if c.val < 32 ∨ c.val = 127 then
        ascii "\\x" ++ [lowerhex (c.val / 16), lowerhex (c.val % 16)]
      else ascii "\\u00" ++ [lowerhex (c.val / 16), lowerhex (c.val % 16)]
    ascii "'" ++ body ++ ascii "'"

/-- The function `newScanner`: a scanner after `reset`, with no byte counted
yet. -/
def newScanner : scanner :=
  { step := .stateBeginValue, endTop := false, parseState := [], err := none, bytes := 0 }

/-- The method `error`: record a syntax error at byte `c`. -/
def scanner.error (s : scanner) (c : Byte) (context : String) : scanner × Scan :=
  ({ s with step := .stateError,
            err := some (.SyntaxError
              (ascii "invalid character " ++ quoteChar c ++ ascii " " ++ ascii context) s.bytes) },
   .scanError)

def scanner.pushParseState (s : scanner) (c : Byte) (newParseState : ParseState)
    (successState : Scan) : scanner × Scan :=
  let s := { s with parseState := newParseState :: s.parseState }
  if s.parseState.length ≤ maxNestingDepth then (s, successState)
  else s.error c "exceeded max depth"

def scanner.popParseState (s : scanner) : scanner :=
  let rest := s.parseState.tail
  if rest.length = 0 then { s with parseState := rest, step := .stateEndTop, endTop := true }
  else { s with parseState := rest, step := .stateEndValue }

def stateEndTop (s : scanner) (c : Byte) : scanner × Scan :=
  if !isSpace c then ((s.error c "after top-level value").1, .scanEnd)
  else (s, .scanEnd)

def stateEndValue (s : scanner) (c : Byte) : scanner × Scan :=
  match s.parseState with
  | [] => stateEndTop { s with step := .stateEndTop, endTop := true } c
  | ps :: rest =>
    if isSpace c then ({ s with step := .stateEndValue }, .scanSkipSpace)
    else
      match ps with
      | .parseObjectKey =>
        if c = 58 then
          ({ s with parseState := .parseObjectValue :: rest, step := .stateBeginValue },
           .scanObjectKey)
        else s.error c "after object key"
      | .parseObjectValue =>
        if c = 44 then
          ({ s with parseState := .parseObjectKey :: rest, step := .stateBeginString },
           .scanObjectValue)
        else if c = 125 then (s.popParseState, .scanEndObject)
        else s.error c "after object key:value pair"
      | .parseArrayValue =>
        if c = 44 then ({ s with step := .stateBeginValue }, .scanArrayValue)
        else if c = 93 then (s.popParseState, .scanEndArray)
        else s.error c "after array element"

def isDigit (c : Byte) : Bool := decide (48 ≤ c.val) && decide (c.val ≤ 57)

def isDigit19 (c : Byte) : Bool := decide (49 ≤ c.val) && decide (c.val ≤ 57)

def isHexDigit (c : Byte) : Bool :=
  isDigit c || (decide (97 ≤ c.val) && decide (c.val ≤ 102)) ||
    (decide (65 ≤ c.val) && decide (c.val ≤ 70))

def stateBeginValue (s : scanner) (c : Byte) : scanner × Scan :=
  if isSpace c then (s, .scanSkipSpace)
  else if c = 123 then
    scanner.pushParseState { s with step := .stateBeginStringOrEmpty } c .parseObjectKey
      .scanBeginObject
  else if c = 91 then
    scanner.pushParseState { s with step := .stateBeginValueOrEmpty } c .parseArrayValue
      .scanBeginArray
  else if c = 34 then ({ s with step := .stateInString }, .scanBeginLiteral)
  else if c = 45 then ({ s with step := .stateNeg }, .scanBeginLiteral)
  else if c = 48 then ({ s with step := .state0 }, .scanBeginLiteral)
  else if c = 116 then ({ s with step := .stateT }, .scanBeginLiteral)
  else if c = 102 then ({ s with step := .stateF }, .scanBeginLiteral)
  else if c = 110 then ({ s with step := .stateN }, .scanBeginLiteral)
  else if isDigit19 c then ({ s with step := .state1 }, .scanBeginLiteral)
  else s.error c "looking for beginning of value"

def stateBeginValueOrEmpty (s : scanner) (c : Byte) : scanner × Scan :=
  if isSpace c then (s, .scanSkipSpace)
  else if c = 93 then stateEndValue s c
  else stateBeginValue s c

def stateBeginString (s : scanner) (c : Byte) : scanner × Scan :=
  if isSpace c then (s, .scanSkipSpace)
  else if c = 34 then ({ s with step := .stateInString }, .scanBeginLiteral)
  else s.error c "looking for beginning of object key string"

def stateBeginStringOrEmpty (s : scanner) (c : Byte) : scanner × Scan :=
  if isSpace c then (s, .scanSkipSpace)
  else if c = 125 then
    stateEndValue { s with parseState := .parseObjectValue :: s.parseState.tail } c
  else stateBeginString s c

def stateInString (s : scanner) (c : Byte) : scanner × Scan :=
  if c = 34 then ({ s with step := .stateEndValue }, .scanContinue)
  else if c = 92 then ({ s with step := .stateInStringEsc }, .scanContinue)
  else if c.val < 32 then s.error c "in string literal"
  else (s, .scanContinue)

def stateInStringEsc (s : scanner) (c : Byte) : scanner × Scan :=
  if c = 98 ∨ c = 102 ∨ c = 110 ∨ c = 114 ∨ c = 116 ∨ c = 92 ∨ c = 47 ∨ c = 34 then
    ({ s with step := .stateInString }, .scanContinue)
  else if c = 117 then ({ s with step := .stateInStringEscU }, .scanContinue)
  else s.error c "in string escape code"

/-- The four states reading the hexadecimal digits of a `\u` escape; `next`
is the state after a digit. -/
def stateHex (next : Step) (s : scanner) (c : Byte) : scanner × Scan :=
  if isHexDigit c then ({ s with step := next }, .scanContinue)
  else s.error c "in \\u hexadecimal character escape"

def stateNeg (s : scanner) (c : Byte) : scanner × Scan :=
  if c = 48 then ({ s with step := .state0 }, .scanContinue)
  else if isDigit19 c then ({ s with step := .state1 }, .scanContinue)
  else s.error c "in numeric literal"

def state0 (s : scanner) (c : Byte) : scanner × Scan :=
  if c = 46 then ({ s with step := .stateDot }, .scanContinue)
  else if c = 101 ∨ c = 69 then ({ s with step := .stateE }, .scanContinue)
  else stateEndValue s c

def state1 (s : scanner) (c : Byte) : scanner × Scan :=
  if isDigit c then ({ s with step := .state1 }, .scanContinue)
  else state0 s c

def stateDot (s : scanner) (c : Byte) : scanner × Scan :=
  if isDigit c then ({ s with step := .stateDot0 }, .scanContinue)
  else s.error c "after decimal point in numeric literal"

def stateDot0 (s : scanner) (c : Byte) : scanner × Scan :=
  if isDigit c then (s, .scanContinue)
  else if c = 101 ∨ c = 69 then ({ s with step := .stateE }, .scanContinue)
  else stateEndValue s c

def stateESign (s : scanner) (c : Byte) : scanner × Scan :=
  if isDigit c then ({ s with step := .stateE0 }, .scanContinue)
  else s.error c "in exponent of numeric literal"

def stateE (s : scanner) (c : Byte) : scanner × Scan :=
  if c = 43 ∨ c = 45 then ({ s with step := .stateESign }, .scanContinue)
  else stateESign s c

def stateE0 (s : scanner) (c : Byte) : scanner × Scan :=
  if isDigit c then (s, .scanContinue)
  else stateEndValue s c

/-- The states spelling out `true`, `false` and `null`: after the expected
byte the scanner moves to `next`. -/
def stateLit (expect : Byte) (next : Step) (context : String) (s : scanner) (c : Byte) :
    scanner × Scan :=
  if c = expect then ({ s with step := next }, .scanContinue)
  else s.error c context

/-- Calling the current step function: `s.step(s, c)`. -/
def scanner.doStep (s : scanner) (c : Byte) : scanner × Scan :=
  match s.step with
  | .stateBeginValueOrEmpty => stateBeginValueOrEmpty s c
  | .stateBeginValue => stateBeginValue s c
  | .stateBeginStringOrEmpty => stateBeginStringOrEmpty s c
  | .stateBeginString => stateBeginString s c
  | .stateEndValue => stateEndValue s c
  | .stateEndTop => stateEndTop s c
  | .stateInString => stateInString s c
  | .stateInStringEsc => stateInStringEsc s c
  | .stateInStringEscU => stateHex .stateInStringEscU1 s c
  | .stateInStringEscU1 => stateHex .stateInStringEscU12 s c
  | .stateInStringEscU12 => stateHex .stateInStringEscU123 s c
  | .stateInStringEscU123 => stateHex .stateInString s c
  | .stateNeg => stateNeg s c
  | .state1 => state1 s c
  | .state0 => state0 s c
  | .stateDot => stateDot s c
  | .stateDot0 => stateDot0 s c
  | .stateE => stateE s c
  | .stateESign => stateESign s c
  | .stateE0 => stateE0 s c
  | .stateT => stateLit 114 .stateTr "in literal true (expecting 'r')" s c
  | .stateTr => stateLit 117 .stateTru "in literal true (expecting 'u')" s c
  | .stateTru => stateLit 101 .stateEndValue "in literal true (expecting 'e')" s c
  | .stateF => stateLit 97 .stateFa "in literal false (expecting 'a')" s c
  | .stateFa => stateLit 108 .stateFal "in literal false (expecting 'l')" s c
  | .stateFal => stateLit 115 .stateFals "in literal false (expecting 's')" s c
  | .stateFals => stateLit 101 .stateEndValue "in literal false (expecting 'e')" s c
  | .stateN => stateLit 117 .stateNu "in literal null (expecting 'u')" s c
  | .stateNu => stateLit 108 .stateNul "in literal null (expecting 'l')" s c
  | .stateNul => stateLit 108 .stateEndValue "in literal null (expecting 'l')" s c
  | .stateError => (s, .scanError)

/-- The method `eof`: the input has ended. -/
def scanner.eof (s : scanner) : scanner × Scan :=
  if s.err.isSome then (s, .scanError)
  else if s.endTop then (s, .scanEnd)
  else
    let s := (s.doStep 32).1
    if s.endTop then (s, .scanEnd)
    else if s.err.isNone then
      ({ s with err := some (.SyntaxError (ascii "unexpected end of JSON input") s.bytes) },
       .scanError)
    else (s, .scanError)

/-- The loop of `checkValid` over the bytes of the input. -/
def checkValidLoop (scan : scanner) : GoString → scanner × Option GoError
  | [] => (scan, none)
  | c :: rest =>
    let scan := { scan with bytes := scan.bytes + 1 }
    let r := scan.doStep c
    if r.2 = .scanError then (r.1, r.1.err) else checkValidLoop r.1 rest

/-- The function `checkValid`: is `data` one JSON value? -/
def checkValid (data : GoString) : Option GoError :=
  let r := checkValidLoop newScanner data
  match r.2 with
  | some e => some e
  | none =>
    let r := r.1.eof
    if r.2 = .scanError then r.1.err else none

/-! ## encoding/json: Decoder (stream.go) and Unmarshal (decode.go) -/

/-- What a reader delivers: the bytes `data`, then the error `err` that ends
the stream (`io.EOF` for a body received in full). -/
structure Body where
  data : GoString
  err : GoError
  deriving DecidableEq, Repr

/-- The function `nonSpace`. -/
def nonSpace (b : GoString) : Bool := b.any (fun c => !isSpace c)

/-- The scan of the buffer in `Decoder.readValue`: `none` when the buffer is
used up before a value ends, otherwise the length of the value or the
scanner's error.  `scanp` counts the bytes scanned so far. -/
def readValueScan (scan : scanner) (scanp : Nat) : GoString → scanner × Option (Except GoError Nat)
  | [] => (scan, none)
  | c :: rest =>
    let scan := { scan with bytes := scan.bytes + 1 }
    let r := scan.doStep c
    match r.2 with
    | .scanEnd => ({ r.1 with bytes := r.1.bytes - 1 }, some (.ok scanp))
    | .scanEndObject | .scanEndArray =>
      let r2 := stateEndValue r.1 32
      if r2.2 = .scanEnd then (r2.1, some (.ok (scanp + 1)))
      else readValueScan r2.1 (scanp + 1) rest
    | .scanError => (r.1, some (.error (r.1.err.getD (.Other []))))
    | _ => readValueScan r.1 (scanp + 1) rest

/-- The method `Decoder.readValue` on a new decoder: the length of the first
JSON value of the stream, or an error. -/
def readValue (body : Body) : Except GoError Nat :=
  let r := readValueScan newScanner 0 body.data
  match r.2 with
  | some res => res
  | none =>
    if body.err = .EOF then
      if (r.1.doStep 32).2 = .scanEnd then .ok body.data.length
      else if nonSpace body.data then .error .ErrUnexpectedEOF
      else .error .EOF
    else .error body.err

/-- The call `json.NewDecoder(body).Decode(v)`.  The argument `unmarshal` is
`(*decodeState).unmarshal`: it stores a complete JSON value into `v` by
reflection and reports what it could not store. -/
def Decode {α : Type} (unmarshal : GoString → α → α × Option GoError) (body : Body) (v : α) :
    α × Option GoError :=
  match readValue body with
  | .error e => (v, some e)
  | .ok n => unmarshal (body.data.take n) v

/-- The call `json.Unmarshal(data, v)`: `checkValid` first, then the
reflection-driven store. -/
def Unmarshal {α : Type} (unmarshal : GoString → α → α × Option GoError) (data : GoString)
    (v : α) : α × Option GoError :=
  match checkValid data with
  | some e => (v, some e)
  | none => unmarshal data v

/-! ## io -/

/-- An `io.Writer`: what it has received so far and what `Write` does. -/
structure Writer where
  written : GoString
  Write : GoString → GoString → GoString × Option GoError

/-- The call `io.Copy(w, body)`: the bytes of the body are written to `w`; a
write error or a read error other than `io.EOF` is the result. -/
def ioCopy (w : Writer) (body : Body) : Writer × Option GoError :=
  if body.data = [] then (w, if body.err = .EOF then none else some body.err)
  else
    let r := w.Write w.written body.data
    match r.2 with
    | some e => ({ w with written := r.1 }, some e)
    | none => ({ w with written := r.1 }, if body.err = .EOF then none else some body.err)

/-- The call `ioutil.ReadAll(body)`. -/
def ReadAll (body : Body) : GoString × Option GoError :=
  (body.data, if body.err = .EOF then none else some body.err)

/-! ## net/url: query escaping and `Values` (url.go) -/

/-- The function `shouldEscape` in mode `encodeQueryComponent`: every byte
but the letters, the digits and `-`, `_`, `.`, `~` is escaped. -/
def shouldEscape (c : Byte) : Bool :=
  if (decide (97 ≤ c.val) && decide (c.val ≤ 122)) || (decide (65 ≤ c.val) && decide (c.val ≤ 90))
      || (decide (48 ≤ c.val) && decide (c.val ≤ 57)) then false
  else if c = 45 ∨ c = 95 ∨ c = 46 ∨ c = 126 then false
  else true

/-- The digit `"0123456789ABCDEF"[n]`. -/
def upperhex (n : Nat) : Byte :=
  if n < 10 then Fin.ofNat (48 + n) else Fin.ofNat (55 + n)

/-- The function `QueryEscape`: a space becomes `+`, a byte to escape
becomes `%XX`. -/
def QueryEscape : GoString → GoString
  | [] => []
  | c :: rest =>
    if c = 32 then 43 :: QueryEscape rest
    else if shouldEscape c then 37 :: upperhex (c.val / 16) :: upperhex (c.val % 16) :: QueryEscape rest
    else c :: QueryEscape rest

def ishex (c : Byte) : Bool :=
  (decide (48 ≤ c.val) && decide (c.val ≤ 57)) || (decide (97 ≤ c.val) && decide (c.val ≤ 102))
    || (decide (65 ≤ c.val) && decide (c.val ≤ 70))

def unhex (c : Byte) : Nat :=
  if 48 ≤ c.val ∧ c.val ≤ 57 then c.val - 48
  else if 97 ≤ c.val ∧ c.val ≤ 102 then c.val - 97 + 10
  else if 65 ≤ c.val ∧ c.val ≤ 70 then c.val - 65 + 10
  else 0

/-- The value `EscapeError(s)`. -/
def EscapeError (s : GoString) : GoError :=
  .Other (ascii "invalid URL escape " ++ s)

/-- The function `QueryUnescape`: `%XX` becomes a byte, `+` a space; a `%` not
followed by two hexadecimal digits is an `EscapeError`. -/
def QueryUnescape : GoString → Except GoError GoString
  | [] => .ok []
  | c :: rest =>
    if c = 37 then
      match rest with
      | a :: b :: rest2 =>
        if ishex a && ishex b then
          match QueryUnescape rest2 with
          | .ok t => .ok (Fin.ofNat (unhex a * 16 + unhex b) :: t)
          | .error e => .error e
        else .error (EscapeError (c :: a :: [b]))
      | _ => .error (EscapeError (c :: rest))
    else
      match QueryUnescape rest with
      | .ok t => .ok ((if c = 43 then 32 else c) :: t)
      | .error e => .error e

/-- The type `url.Values`, a `map[string][]string`: its entries, kept in the
order of their keys. -/
abbrev Values := List (GoString × List GoString)

/-- The map lookup `v[key]`: the nil slice for a key that is absent. -/
def Values.lookup : Values → GoString → List GoString
  | [], _ => []
  | (k, vs) :: rest, key => if key = k then vs else Values.lookup rest key

/-- The method `Add`: `v[key] = append(v[key], value)`. -/
def Values.Add : Values → GoString → GoString → Values
  | [], key, value => [(key, [value])]
  | (k, vs) :: rest, key, value =>
    if key = k then (k, vs ++ [value]) :: rest
    else if key < k then (key, [value]) :: (k, vs) :: rest
    else (k, vs) :: Values.Add rest key value

/-- The pairs `key=value` of one key in `Encode`, each preceded by `&` when
something was written before it. -/
def encodeKey (keyEscaped : GoString) : List GoString → GoString → GoString
  | [], buf => buf
  | v :: vs, buf =>
    encodeKey keyEscaped vs
      ((if buf.length > 0 then buf ++ [38] else buf) ++ keyEscaped ++ [61] ++ QueryEscape v)

/-- The loop of `Encode` over the sorted keys. -/
def encodeKeys (v : Values) : List GoString → GoString → GoString
  | [], buf => buf
  | k :: keys, buf => encodeKeys v keys (encodeKey (QueryEscape k) (v.lookup k) buf)

/-- The method `Encode`: the values in "URL encoded" form, sorted by key. -/
def Values.Encode (v : Values) : GoString :=
  if v.length = 0 then []
  else encodeKeys v (List.insertionSort (· ≤ ·) (v.map Prod.fst)) []

/-- The function `strings.Cut` with a separator of one byte: the text before
and after the first `sep`; all of `s` and nothing when there is none. -/
def Cut (sep : Byte) : GoString → GoString × GoString
  | [] => ([], [])
  | c :: rest => if c = sep then ([], rest) else ((c :: (Cut sep rest).1), (Cut sep rest).2)

/-- The loop of `parseQuery`; `fuel` bounds the number of rounds, each of
which shortens a non-empty `query`. -/
def parseQueryLoop : Nat → Values → Option GoError → GoString → Values × Option GoError
  | 0, m, err, _ => (m, err)
  | fuel + 1, m, err, query =>
    if query = [] then (m, err)
    else
      let key := (Cut 38 query).1
      let query := (Cut 38 query).2
      if 59 ∈ key then
        parseQueryLoop fuel m (some (.Other (ascii "invalid semicolon separator in query"))) query
      else if key = [] then parseQueryLoop fuel m err query
      else
        let value := (Cut 61 key).2
        let key := (Cut 61 key).1
        match QueryUnescape key with
        | .error err1 => parseQueryLoop fuel m (if err.isNone then some err1 else err) query
        | .ok key =>
          match QueryUnescape value with
          | .error err1 => parseQueryLoop fuel m (if err.isNone then some err1 else err) query
          | .ok value => parseQueryLoop fuel (m.Add key value) err query

/-- The function `ParseQuery`. -/
def ParseQuery (query : GoString) : Values × Option GoError :=
  parseQueryLoop query.length [] none query

/-! ## net/http -/

/-- The parts of a parsed URL. -/
structure URL where
  Scheme : GoString
  Host : GoString
  Path : GoString
  RawQuery : GoString
  Fragment : GoString
  deriving DecidableEq, Repr

/-- The method `Query`: the parsed `RawQuery`; malformed pairs are dropped. -/
def URL.Query (u : URL) : Values := (ParseQuery u.RawQuery).1

/-- An HTTP request.  `Header` lists the pairs given to `Header.Add`, in
order. -/
structure Request where
  Method : GoString
  URL : URL
  Header : List (GoString × GoString)
  Body : GoString
  deriving DecidableEq, Repr

def Request.HeaderAdd (r : Request) (key value : GoString) : Request :=
  { r with Header := r.Header ++ [(key, value)] }

/-- An HTTP response. -/
structure Response where
  StatusCode : Nat
  Body : Body
  deriving DecidableEq, Repr

/-- The function `http.NewRequest` for the methods used here (`GET`, `POST`);
`parse` is `url.Parse`.  A URL that does not parse gives no request. -/
def NewRequest (parse : GoString → Except GoError URL) (method url body : GoString) :
    Option Request × Option GoError :=
  match parse url with
  | .error e => (none, some e)
  | .ok u => (some { Method := method, URL := u, Header := [], Body := body }, none)

/-- The call `json.Marshal(requestObj)` on an `interface{}`: `null` for the nil
interface, otherwise what reflection-driven marshalling (`marshal`) gives. -/
def Marshal {Obj : Type} (marshal : Obj → Except GoError GoString) :
    Option Obj → Except GoError GoString
  | none => .ok (ascii "null")
  | some o => marshal o

/-! ## sbanken.go: the HTTP executor -/

/-- The configuration held by the client; `getRequest` reads `CustomerID`. -/
structure Config where
  CustomerID : GoString
  deriving DecidableEq, Repr

/-- The functions of the standard library whose results depend on reflection
over the caller's types or on URL syntax: `url.Parse`, the marshalling of a
request object, and the store of a JSON value into a response object. -/
structure Lib (Obj α : Type) where
  parse : GoString → Except GoError URL
  marshal : Obj → Except GoError GoString
  unmarshal : GoString → α → α × Option GoError

/-- A `Client`: `client` is what `(*http.Client).Do` answers to a request. -/
structure Client where
  client : Request → Except GoError Response
  config : Config

/-- The argument `responseObj interface{}`: nil, a value that implements
`io.Writer`, or any other value. -/
inductive Container (α : Type) where
  | nil
  | writer (w : Writer)
  | value (v : α)

/-- What `do`, `get` and `post` return, together with the response object as
the call leaves it. -/
structure Result (α : Type) where
  resp : Option Response
  err : Option GoError
  responseObj : Container α

def Client.do {Obj α : Type} (lib : Lib Obj α) (c : Client) (req : Request)
    (responseObj : Container α) : Result α :=
  match c.client req with
  | .error err => { resp := none, err := some err, responseObj := responseObj }
  | .ok resp =>
    match responseObj with
    | .nil => { resp := some resp, err := none, responseObj := .nil }
    | .writer w =>
      { resp := some resp, err := none, responseObj := .writer (ioCopy w resp.Body).1 }
    | .value v =>
      let r := Decode lib.unmarshal resp.Body v
      let err := if r.2 = some .EOF then none else r.2
      { resp := some resp, err := err, responseObj := .value r.1 }

/-- The loop `for key, value := range queryParams`; the list gives the entries
of the map in the order in which the loop visits them. -/
def addAll (query : Values) (queryParams : List (GoString × GoString)) : Values :=
  queryParams.foldl (fun q kv => q.Add kv.1 kv.2) query

def Client.getRequest {Obj α : Type} (lib : Lib Obj α) (c : Client) (url method : GoString)
    (queryParams : List (GoString × GoString)) (requestObj : Option Obj)
    (_responseObj : Container α) : Option Request × Option GoError :=
  match Marshal lib.marshal requestObj with
  | .error err => (none, some err)
  | .ok payload =>
    match NewRequest lib.parse method url payload with
    | (none, err) => (none, err)
    | (some request, err) =>
      let request := request.HeaderAdd (ascii "Accept") (ascii "application/json")
      let request := request.HeaderAdd (ascii "customerId") c.config.CustomerID
      let query := addAll request.URL.Query queryParams
      let request := { request with URL := { request.URL with RawQuery := query.Encode } }
      (some request, err)

def Client.get {Obj α : Type} (lib : Lib Obj α) (c : Client) (url : GoString)
    (queryParams : List (GoString × GoString)) (responseObj : Container α) :
    Outcome (Result α) :=
  match c.getRequest lib url (ascii "GET") queryParams none responseObj with
  | (_, some err) => .ret { resp := none, err := some err, responseObj := responseObj }
  | (none, none) => .panic
  | (some request, none) => .ret (c.do lib request responseObj)

/-- The method `post`.  The header is added to the request before the error of
`getRequest` is looked at: with no request, this is a nil dereference. -/
def Client.post {Obj α : Type} (lib : Lib Obj α) (c : Client) (url : GoString)
    (queryParams : List (GoString × GoString)) (requestObj : Option Obj)
    (responseObj : Container α) : Outcome (Result α) :=
  match c.getRequest lib url (ascii "POST") queryParams requestObj responseObj with
  | (none, _) => .panic
  | (some request, err) =>
    let request := request.HeaderAdd (ascii "Content-Type") (ascii "application/json")
    match err with
    | some err => .ret { resp := none, err := some err, responseObj := responseObj }
    | none => .ret (c.do lib request responseObj)

/-! ## time -/

/-- Reduction of an integer to the range of `int64` (two's complement). -/
def wrap64 (x : Int) : Int := (x + 2 ^ 63) % 2 ^ 64 - 2 ^ 63

/-- A `time.Duration`: nanoseconds, an `int64`. -/
abbrev Duration := Int

/-- The constant `time.Second`. -/
def Second : Duration := 1000000000

/-- The product of two durations, as Go computes it in `int64`. -/
def Duration.mul (a b : Duration) : Duration := wrap64 (a * b)

/-- The wall-clock reading of a `time.Time`: `sec` seconds since January 1 of
year 1 (an `int64`) and `nsec` nanoseconds within the second. -/
structure Time where
  sec : Int
  nsec : Int
  deriving DecidableEq, Repr

/-- The instant of a time in nanoseconds since January 1 of year 1. -/
def Time.nanos (t : Time) : Int := t.sec * 1000000000 + t.nsec

/-- The method `addSec`: the sum of the seconds; it saturates where the sum
leaves `int64`. -/
def Time.addSec (t : Time) (d : Int) : Time :=
  let sum := wrap64 (t.sec + d)
  if decide (sum > t.sec) = decide (d > 0) then { t with sec := sum }
  else if d > 0 then { t with sec := 2 ^ 63 - 1 }
  else { t with sec := -(2 ^ 63 - 1) }

/-- The method `Time.Add`. -/
def Time.Add (t : Time) (d : Duration) : Time :=
  let dsec := Int.tdiv d 1000000000
  let nsec := t.nsec + Int.tmod d 1000000000
  if nsec ≥ 1000000000 then Time.addSec { t with nsec := nsec - 1000000000 } (dsec + 1)
  else if nsec < 0 then Time.addSec { t with nsec := nsec + 1000000000 } (dsec - 1)
  else Time.addSec { t with nsec := nsec } dsec

/-! ## encoding/base64 -/

/-- The alphabet of `base64.StdEncoding`. -/
def encodeStd (n : Nat) : Byte :=
  if n < 26 then Fin.ofNat (65 + n)
  else if n < 52 then Fin.ofNat (97 + (n - 26))
  else if n < 62 then Fin.ofNat (48 + (n - 52))
  else if n = 62 then 43 else 47

/-- The call `base64.StdEncoding.EncodeToString(src)`. -/
def EncodeToString : GoString → GoString
  | a :: b :: c :: rest =>
    encodeStd (a.val / 4) :: encodeStd (a.val % 4 * 16 + b.val / 16) ::
      encodeStd (b.val % 16 * 4 + c.val / 64) :: encodeStd (c.val % 64) :: EncodeToString rest
  | [a, b] =>
    [encodeStd (a.val / 4), encodeStd (a.val % 4 * 16 + b.val / 16), encodeStd (b.val % 16 * 4), 61]
  | [a] => [encodeStd (a.val / 4), encodeStd (a.val % 4 * 16), 61, 61]
  | [] => []

/-! ## authentication/sbankenToken.go: the token provider -/

/-- Modelled from the spec: the declaration of `tokenBase` is not among the
sources; the token holds the token string, its expiry `validTo` and its
type. -/
structure tokenBase where
  tokenString : GoString
  validTo : Time
  tokenType : GoString
  deriving DecidableEq, Repr

structure sbankenToken extends tokenBase where
  identityServer : GoString
  clientId : GoString
  clientSecret : GoString
  deriving DecidableEq, Repr

/-- The type `sbankenTokenResponse`; `ExpiresIn` is an `int` of 64 bits. -/
structure sbankenTokenResponse where
  AccessToken : GoString
  TokenType : GoString
  ExpiresIn : Int
  deriving DecidableEq, Repr

/-- The zero value declared by `var bankToken sbankenTokenResponse`. -/
def sbankenTokenResponse.zero : sbankenTokenResponse :=
  { AccessToken := [], TokenType := [], ExpiresIn := 0 }

/-- What the token provider calls outside the repository: `url.Parse`, the
identity server behind a new `http.Client`, and the store of a JSON value into
a `sbankenTokenResponse`. -/
structure AuthLib where
  parse : GoString → Except GoError URL
  Do : Request → Except GoError Response
  unmarshal : GoString → sbankenTokenResponse → sbankenTokenResponse × Option GoError

/-- The function `callIdentityServer`.  The three checked errors print the
error and leave the process with `os.Exit(1)`; what `json.Unmarshal` returns
is dropped. -/
def callIdentityServer (lib : AuthLib) (identityServer clientId clientSecret : GoString) :
    Outcome sbankenTokenResponse :=
  match NewRequest lib.parse (ascii "POST") identityServer (ascii "grant_type=client_credentials") with
  | (_, some _) => .exit 1
  | (none, none) => .panic
  | (some request, none) =>
    let request := request.HeaderAdd (ascii "Accept") (ascii "application/json")
    let request := request.HeaderAdd (ascii "Authorization")
      (ascii "Basic " ++ EncodeToString (clientId ++ ascii ":" ++ clientSecret))
    let request := request.HeaderAdd (ascii "Content-Type")
      (ascii "application/x-www-form-urlencoded; charset=utf-8")
    match lib.Do request with
    | .error _ => .exit 1
    | .ok response =>
      match ReadAll response.Body with
      | (_, some _) => .exit 1
      | (body, none) =>
        let bankToken := sbankenTokenResponse.zero
        .ret (Unmarshal lib.unmarshal body bankToken).1

/-- The function `NewSbankenToken`; `now` is the reading of `time.Now()`. -/
def NewSbankenToken (lib : AuthLib) (now : Time) (identityServer clientId clientSecret : GoString) :
    Outcome sbankenToken :=
  match callIdentityServer lib identityServer clientId clientSecret with
  | .exit code => .exit code
  | .panic => .panic
  | .ret response =>
    .ret { tokenString := response.AccessToken
           validTo := now.Add (Duration.mul response.ExpiresIn Second)
           tokenType := response.TokenType
           identityServer := identityServer
           clientId := clientId
           clientSecret := clientSecret }

def sbankenToken.GetExpirationTime (sbt : sbankenToken) : Time := sbt.validTo

/-- The method `RefreshToken`: the token after the call; `now` is the reading
of `time.Now()`. -/
def sbankenToken.RefreshToken (lib : AuthLib) (now : Time) (sbt : sbankenToken) :
    Outcome sbankenToken :=
  match callIdentityServer lib sbt.identityServer sbt.clientId sbt.clientSecret with
  | .exit code => .exit code
  | .panic => .panic
  | .ret response =>
    let sbt := { sbt with tokenString := response.AccessToken }
    let sbt := { sbt with validTo := now.Add (Duration.mul response.ExpiresIn Second) }
    let sbt := { sbt with tokenType := response.TokenType }
    .ret sbt

/-! ## accounts.go: the accounts repository -/

/-- A `float64`, by its bit pattern. -/
structure float64 where
  bits : Nat
  deriving DecidableEq, Repr

structure Account where
  AccountNumber : GoString
  CustomerId : GoString
  OwnerCustomerId : GoString
  Name : GoString
  AccountType : GoString
  Available : float64
  Balance : float64
  CreditLimit : float64
  DefaultAccount : Bool
  deriving DecidableEq, Repr

/-- The zero value of `Account`. -/
def Account.zero : Account :=
  { AccountNumber := [], CustomerId := [], OwnerCustomerId := [], Name := [], AccountType := [],
    Available := ⟨0⟩, Balance := ⟨0⟩, CreditLimit := ⟨0⟩, DefaultAccount := false }

/-- Modelled from the spec: the declaration of `common.Error` is not among the
sources; it is the envelope `{isError: bool, errorMessage: string}` embedded in
every typed response. -/
structure Error where
  IsError : Bool
  ErrorMessage : GoString
  deriving DecidableEq, Repr

structure accountsResponse extends Error where
  AvailableItems : Int
  Items : List Account
  deriving DecidableEq, Repr

structure accountResponse extends Error where
  Item : Account
  deriving DecidableEq, Repr

/-- The zero value declared by `var accountsRsp accountsResponse`. -/
def accountsResponse.zero : accountsResponse :=
  { AvailableItems := 0, Items := [], IsError := false, ErrorMessage := [] }

/-- The zero value declared by `var accountRsp accountResponse`. -/
def accountResponse.zero : accountResponse :=
  { Item := Account.zero, IsError := false, ErrorMessage := [] }

/-- Modelled from the spec: the package `client` is not among the sources; its
`SbankenClient.Get(url, queryParams)` answers with the raw bytes of the
response and an error. -/
structure SbankenClient where
  Get : GoString → List (GoString × GoString) → GoString × Option GoError

structure accountsRepository where
  url : GoString
  client : SbankenClient

/-- The function `errors.New`. -/
def errorsNew (text : GoString) : GoError := .New text

/-- The method `GetAccounts`; `unmarshal` is the store of a JSON value into an
`accountsResponse`. -/
def accountsRepository.GetAccounts
    (unmarshal : GoString → accountsResponse → accountsResponse × Option GoError)
    (ar : accountsRepository) (customerId : GoString) : List Account × Option GoError :=
  let accountsRsp := accountsResponse.zero
  match ar.client.Get (ar.url ++ customerId) [] with
  | (_, some err) => (accountsRsp.Items, some err)
  | (response, none) =>
    let r := Unmarshal unmarshal response accountsRsp
    let accountsRsp := r.1
    let err := r.2
    if accountsRsp.IsError = true then (accountsRsp.Items, some (errorsNew accountsRsp.ErrorMessage))
    else (accountsRsp.Items, err)

/-- The method `GetAccount`; `unmarshal` is the store of a JSON value into an
`accountResponse`. -/
def accountsRepository.GetAccount
    (unmarshal : GoString → accountResponse → accountResponse × Option GoError)
    (ar : accountsRepository) (customerId accountNumber : GoString) : Account × Option GoError :=
  let accountRsp := accountResponse.zero
  match ar.client.Get (ar.url ++ customerId ++ ascii "/" ++ accountNumber) [] with
  | (_, some err) => (accountRsp.Item, some err)
  | (response, none) =>
    let r := Unmarshal unmarshal response accountRsp
    let accountRsp := r.1
    let err := r.2
    if accountRsp.IsError = true then (accountRsp.Item, some (errorsNew accountRsp.ErrorMessage))
    else (accountRsp.Item, err)

/-! ## Notions used in the statements and proofs -/

/-- The error a scanner holds, if it is in the error state, is a syntax
error. -/
def scanner.errIsSyntax (s : scanner) : Prop :=
  s.step = .stateError → ∃ m o, s.err = some (.SyntaxError m o)

/-- The property of a step result that the proofs about errors need: the new
scanner keeps `errIsSyntax`, and a result `scanError` comes with a syntax
error. -/
def stepOk (r : scanner × Scan) : Prop :=
  r.1.errIsSyntax ∧ (r.2 = .scanError → ∃ m o, r.1.err = some (.SyntaxError m o))

/-- The request that `callIdentityServer` sends, built from the new request. -/
def identityRequest (request : Request) (clientId clientSecret : GoString) : Request :=
  ((request.HeaderAdd (ascii "Accept") (ascii "application/json")).HeaderAdd (ascii "Authorization")
      (ascii "Basic " ++ EncodeToString (clientId ++ ascii ":" ++ clientSecret))).HeaderAdd
    (ascii "Content-Type") (ascii "application/x-www-form-urlencoded; charset=utf-8")

/-- The pairs of a `Values`, key by key, the values of a key in order. -/
def Values.flat : Values → List (GoString × GoString)
  | [] => []
  | (k, vs) :: rest => vs.map (fun x => (k, x)) ++ Values.flat rest

/-- The text `key=value` of one pair, both escaped. -/
def encodePair (p : GoString × GoString) : GoString :=
  QueryEscape p.1 ++ [61] ++ QueryEscape p.2

/-- The texts of the pairs, joined by `&`. -/
def joinPairs : List (GoString × GoString) → GoString
  | [] => []
  | [p] => encodePair p
  | p :: q :: rest => encodePair p ++ 38 :: joinPairs (q :: rest)

/-- A `Values` as the code builds it: every key once, the keys in order, no key
without a value. -/
def Values.WF (v : Values) : Prop :=
  (v.map Prod.fst).Pairwise (· < ·) ∧ ∀ p ∈ v, p.2 ≠ []

/-! ## Sample surroundings, to run the code on concrete inputs -/

/-- The text after the prefix `pre`, if `s` begins with it. -/
def afterPrefix (pre s : GoString) : Option GoString :=
  if pre.isPrefixOf s then some (s.drop pre.length) else none

/-- A `url.Parse` for the URLs of the examples, of the forms `/path?query` and
`https://host/path?query`: a control character is rejected; the fragment after
`#` and the query after `?` are split off; after `https://` the host runs up
to the next `/`. -/
def sampleParse (url : GoString) : Except GoError URL :=
  if url.any (fun c => decide (c.val < 32) || decide (c.val = 127)) then
    .error (.Other (ascii "net/url: invalid control character in URL"))
  else
    let fragment := (Cut 35 url).2
    let rest := (Cut 35 url).1
    let query := (Cut 63 rest).2
    let rest := (Cut 63 rest).1
    match afterPrefix (ascii "https://") rest with
    | some hostPath =>
      .ok { Scheme := ascii "https", Host := hostPath.takeWhile (fun c => c ≠ 47),
            Path := hostPath.dropWhile (fun c => c ≠ 47), RawQuery := query, Fragment := fragment }
    | none => .ok { Scheme := [], Host := [], Path := rest, RawQuery := query, Fragment := fragment }

/-- A server that answers every request with status 200 and the given body. -/
def serve (body : GoString) : Request → Except GoError Response :=
  fun _ => .ok { StatusCode := 200, Body := { data := body, err := .EOF } }

/-- A network on which every call fails. -/
def refuse : Request → Except GoError Response :=
  fun _ => .error (.Other (ascii "dial tcp: connection refused"))

/-- A library for request objects that cannot be marshalled (a channel, say)
and response objects kept as raw JSON text. -/
def sampleLib : Lib Unit GoString :=
  { parse := sampleParse
    marshal := fun _ => .error (.Other (ascii "json: unsupported type: chan int"))
    unmarshal := fun data _ => (data, none) }

/-- A writer that keeps what it is given, as `bytes.Buffer` does. -/
def bufferWriter : Writer :=
  { written := [], Write := fun old p => (old ++ p, none) }

/-- A writer that fails on every write, as a closed file does. -/
def closedWriter : Writer :=
  { written := [], Write := fun old _ => (old, some (.Other (ascii "write: file already closed"))) }

/-- A client on a network that refuses every call. -/
def offlineClient : Client := { client := refuse, config := { CustomerID := ascii "42" } }

/-- A client whose server answers with the given body. -/
def clientOf (body : GoString) : Client :=
  { client := serve body, config := { CustomerID := ascii "42" } }

/-- A request for the accounts endpoint. -/
def sampleRequest : Request :=
  { Method := ascii "GET", URL := ⟨[], [], ascii "/accounts", [], []⟩, Header := [], Body := [] }

/-- The error that `json.Unmarshal` reports for a string where
`availableItems` expects a number. -/
def typeError : GoError :=
  .Other (ascii "json: cannot unmarshal string into Go struct field accountsResponse.availableItems of type int")

/-- The store of a JSON value into an `accountsResponse`, given for three
texts.  Where `availableItems` is a string, that field is skipped and reported
by an `*json.UnmarshalTypeError`, and the other fields are stored. -/
def accountsStore (data : GoString) (v : accountsResponse) : accountsResponse × Option GoError :=
  if data = ascii "\x7b\"isError\":true,\"errorMessage\":\"insufficient funds\"\x7d" then
    ({ v with IsError := true, ErrorMessage := ascii "insufficient funds" }, none)
  else if data = ascii "\x7b\"availableItems\":\"many\",\"isError\":true,\"errorMessage\":\"insufficient funds\"\x7d" then
    ({ v with IsError := true, ErrorMessage := ascii "insufficient funds" }, some typeError)
  else if data = ascii "\x7b\"availableItems\":\"many\"\x7d" then (v, some typeError)
  else (v, none)

/-- The store of a JSON value into an `accountResponse`, given for one
text. -/
def accountStore (data : GoString) (v : accountResponse) : accountResponse × Option GoError :=
  if data = ascii "\x7b\"isError\":true,\"errorMessage\":\"insufficient funds\"\x7d" then
    ({ v with IsError := true, ErrorMessage := ascii "insufficient funds" }, none)
  else (v, none)

/-- A repository whose client answers every call with the given bytes. -/
def repositoryOf (body : GoString) : accountsRepository :=
  { url := ascii "https://api.example/accounts/", client := { Get := fun _ _ => (body, none) } }

/-- A repository whose client fails on every call. -/
def offlineRepository : accountsRepository :=
  { url := ascii "https://api.example/accounts/",
    client := { Get := fun _ _ => ([], some (.Other (ascii "dial tcp: connection refused"))) } }

/-- The store of a JSON value into a `sbankenTokenResponse`, given for two
texts. -/
def tokenStore (data : GoString) (v : sbankenTokenResponse) :
    sbankenTokenResponse × Option GoError :=
  if data = ascii "\x7b\"access_token\":\"abc\",\"token_type\":\"Bearer\",\"expires_in\":3600\x7d" then
    ({ AccessToken := ascii "abc", TokenType := ascii "Bearer", ExpiresIn := 3600 }, none)
  else if data = ascii "\x7b\"access_token\":\"abc\",\"token_type\":\"Bearer\",\"expires_in\":9223372037\x7d" then
    ({ AccessToken := ascii "abc", TokenType := ascii "Bearer", ExpiresIn := 9223372037 }, none)
  else (v, none)

/-- An identity server that answers every request with the given body. -/
def identityServerOf (body : GoString) : AuthLib :=
  { parse := sampleParse, Do := serve body, unmarshal := tokenStore }

/-- A reading of the clock. -/
def sampleNow : Time := { sec := 63900000000, nsec := 500 }

/-- On a buffer of white space the scan of `readValue` uses the buffer up in
the state in which it began. -/
theorem readValueScan_space (data : GoString) (h : nonSpace data = false) (bytes scanp : Nat) :
    readValueScan ⟨.stateBeginValue, false, [], none, bytes⟩ scanp data =
      (⟨.stateBeginValue, false, [], none, bytes + data.length⟩, none) := by
  induction data generalizing bytes scanp with
  | nil => rfl
  | cons c rest ih =>
    simp only [nonSpace, List.any_cons, Bool.or_eq_false_iff, Bool.not_eq_false'] at h
    have hr : nonSpace rest = false := by simpa [nonSpace] using h.2
    have hstep : scanner.doStep ⟨.stateBeginValue, false, [], none, bytes + 1⟩ c =
        (⟨.stateBeginValue, false, [], none, bytes + 1⟩, .scanSkipSpace) := by
      simp [scanner.doStep, stateBeginValue, h.1]
    rw [readValueScan]
    simp only [hstep]
    rw [ih hr]
    simp [Nat.add_assoc, Nat.add_comm 1]

/-- A body of white space only (the empty body too) that ends with `io.EOF`
makes `readValue` report `io.EOF`. -/
theorem readValue_space (data : GoString) (h : nonSpace data = false) :
    readValue { data := data, err := .EOF } = .error .EOF := by
  have hs := readValueScan_space data h 0 0
  have hn : newScanner = ⟨.stateBeginValue, false, [], none, 0⟩ := rfl
  simp only [readValue, hn, hs, h]
  simp [scanner.doStep, stateBeginValue, isSpace]

theorem error_errIsSyntax (s : scanner) (c : Byte) (context : String) :
    (s.error c context).1.errIsSyntax ∧ ∃ m o, (s.error c context).1.err = some (.SyntaxError m o) :=
  ⟨fun _ => ⟨_, _, rfl⟩, ⟨_, _, rfl⟩⟩

theorem stepOk_error (s : scanner) (c : Byte) (context : String) : stepOk (s.error c context) :=
  ⟨(error_errIsSyntax s c context).1, fun _ => (error_errIsSyntax s c context).2⟩

theorem stepOk_move (s : scanner) (r : Scan) (hs : s.step ≠ .stateError) (hr : r ≠ .scanError) :
    stepOk (s, r) :=
  ⟨fun h => absurd h hs, fun h => absurd h hr⟩

theorem stepOk_stateEndTop (s : scanner) (c : Byte) (hs : s.step ≠ .stateError) :
    stepOk (stateEndTop s c) := by
  unfold stateEndTop
  split
  · exact ⟨(error_errIsSyntax s c _).1, fun h => by cases h⟩
  · exact stepOk_move s _ hs (by decide)

theorem stepOk_stateEndValue (s : scanner) (c : Byte) : stepOk (stateEndValue s c) := by
  unfold stateEndValue
  split
  · exact stepOk_stateEndTop _ c (by simp)
  · split
    · exact stepOk_move _ _ (by simp) (by decide)
    · split
      · split
        · exact stepOk_move _ _ (by simp) (by decide)
        · exact stepOk_error _ _ _
      · split
        · exact stepOk_move _ _ (by simp) (by decide)
        · split
          · refine stepOk_move _ _ ?_ (by decide)
            unfold scanner.popParseState; simp only []; split <;> simp
          · exact stepOk_error _ _ _
      · split
        · exact stepOk_move _ _ (by simp) (by decide)
        · split
          · refine stepOk_move _ _ ?_ (by decide)
            unfold scanner.popParseState; simp only []; split <;> simp
          · exact stepOk_error _ _ _

theorem stepOk_pushParseState (s : scanner) (c : Byte) (p : ParseState) (r : Scan)
    (hs : s.step ≠ .stateError) (hr : r ≠ .scanError) : stepOk (s.pushParseState c p r) := by
  unfold scanner.pushParseState
  simp only
  split
  · exact stepOk_move _ _ (by simpa using hs) hr
  · exact stepOk_error _ _ _

theorem stepOk_stateBeginValue (s : scanner) (c : Byte) (hs : s.step ≠ .stateError) :
    stepOk (stateBeginValue s c) := by
  unfold stateBeginValue
  repeat' split
  all_goals first
    | exact stepOk_error _ _ _
    | exact stepOk_pushParseState _ _ _ _ (by simp) (by decide)
    | exact stepOk_move _ _ hs (by decide)
    | (refine stepOk_move _ _ ?_ (by decide); simp)

theorem stepOk_stateBeginString (s : scanner) (c : Byte) (hs : s.step ≠ .stateError) :
    stepOk (stateBeginString s c) := by
  unfold stateBeginString
  repeat' split
  all_goals first
    | exact stepOk_error _ _ _
    | exact stepOk_move _ _ hs (by decide)
    | (refine stepOk_move _ _ ?_ (by decide); simp)

theorem stepOk_state0 (s : scanner) (c : Byte) : stepOk (state0 s c) := by
  unfold state0
  repeat' split
  all_goals first
    | exact stepOk_stateEndValue _ _
    | (refine stepOk_move _ _ ?_ (by decide); simp)

/-- Every step of the scanner keeps `errIsSyntax` and reports `scanError` only
with a syntax error recorded. -/
theorem stepOk_doStep (s : scanner) (c : Byte) (hs : s.errIsSyntax) : stepOk (s.doStep c) := by
  unfold scanner.doStep
  split
  case h_31 h => exact ⟨by simpa using hs, fun _ => hs h⟩
  all_goals rename_i h
  all_goals have hne : s.step ≠ .stateError := by rw [h]; decide
  · unfold stateBeginValueOrEmpty
    repeat' split
    all_goals first
      | exact stepOk_stateEndValue _ _
      | exact stepOk_stateBeginValue _ _ hne
      | exact stepOk_move _ _ hne (by decide)
  · exact stepOk_stateBeginValue _ _ hne
  · unfold stateBeginStringOrEmpty
    repeat' split
    all_goals first
      | exact stepOk_stateEndValue _ _
      | exact stepOk_stateBeginString _ _ hne
      | exact stepOk_move _ _ hne (by decide)
  · exact stepOk_stateBeginString _ _ hne
  · exact stepOk_stateEndValue _ _
  · exact stepOk_stateEndTop _ _ hne
  all_goals
    first
    | exact stepOk_state0 _ _
    | (unfold stateInString; repeat' split)
    | (unfold stateInStringEsc; repeat' split)
    | (unfold stateHex; repeat' split)
    | (unfold stateNeg; repeat' split)
    | (unfold state1; repeat' split)
    | (unfold stateDot; repeat' split)
    | (unfold stateDot0; repeat' split)
    | (unfold stateE; unfold stateESign; repeat' split)
    | (unfold stateESign; repeat' split)
    | (unfold stateE0; repeat' split)
    | (unfold stateLit; repeat' split)
  all_goals first
    | exact stepOk_error _ _ _
    | exact stepOk_stateEndValue _ _
    | exact stepOk_state0 _ _
    | exact stepOk_move _ _ hne (by decide)
    | (refine stepOk_move _ _ ?_ (by decide); simp)

/-- An error found by the scan of `readValue` is a syntax error. -/
theorem readValueScan_error (data : GoString) (s : scanner) (hs : s.errIsSyntax) (scanp : Nat)
    (r : GoError) (h : (readValueScan s scanp data).2 = some (.error r)) :
    ∃ m o, r = .SyntaxError m o := by
  induction data generalizing s scanp with
  | nil => simp [readValueScan] at h
  | cons c rest ih =>
    rw [readValueScan] at h
    have hs1 : scanner.errIsSyntax { s with bytes := s.bytes + 1 } := hs
    have hok := stepOk_doStep _ c hs1
    generalize scanner.doStep { s with bytes := s.bytes + 1 } c = r1 at h hok
    obtain ⟨s1, code⟩ := r1
    cases code <;> simp only at h
    case scanError =>
      obtain ⟨m, o, hm⟩ := hok.2 rfl
      simp only at hm
      simp only [hm, Option.getD_some, Option.some.injEq, Except.error.injEq] at h
      exact ⟨m, o, h.symm⟩
    case scanEnd => simp at h
    case scanEndObject =>
      split at h
      · simp at h
      · exact ih _ (stepOk_stateEndValue _ _).1 _ h
    case scanEndArray =>
      split at h
      · simp at h
      · exact ih _ (stepOk_stateEndValue _ _).1 _ h
    all_goals exact ih _ hok.1 _ h

/-- An error of `readValue` on a body with a byte that is not white space is
never `io.EOF`. -/
theorem readValue_error_ne_EOF (body : Body) (h : nonSpace body.data = true) (e : GoError)
    (he : readValue body = .error e) : e ≠ .EOF := by
  unfold readValue at he
  cases hr : (readValueScan newScanner 0 body.data).2 with
  | some res =>
    simp only [hr] at he
    subst he
    obtain ⟨m, o, hm⟩ := readValueScan_error body.data newScanner (fun h => by cases h) 0 e hr
    rw [hm]; simp
  | none =>
    simp only [hr, h] at he
    by_cases hb : body.err = .EOF
    · simp only [hb, if_true] at he
      split at he
      · cases he
      · simp at he
        subst he
        simp
    · simp only [hb, if_false] at he
      cases he
      exact hb

/-- C8: when the HTTP call fails with transport error `e`, `do` returns no
response and exactly `e` and leaves the response object as it was, whatever
kind of object it is; `get` and `post` hand that result on unchanged. -/
theorem do_transport_error {Obj α : Type} (lib : Lib Obj α) (c : Client) (req : Request)
    (responseObj : Container α) (e : GoError) (h : c.client req = .error e) :
    c.do lib req responseObj = { resp := none, err := some e, responseObj := responseObj } ∧
    (∀ url queryParams,
      c.getRequest lib url (ascii "GET") queryParams none responseObj = (some req, none) →
      c.get lib url queryParams responseObj =
        .ret { resp := none, err := some e, responseObj := responseObj }) ∧
    (∀ url queryParams requestObj request,
      c.getRequest lib url (ascii "POST") queryParams requestObj responseObj = (some request, none) →
      req = request.HeaderAdd (ascii "Content-Type") (ascii "application/json") →
      c.post lib url queryParams requestObj responseObj =
        .ret { resp := none, err := some e, responseObj := responseObj }) := by
  have hdo : c.do lib req responseObj =
      { resp := none, err := some e, responseObj := responseObj } := by
    simp only [Client.do, h]
  refine ⟨hdo, ?_, ?_⟩
  · intro url queryParams hreq
    simp only [Client.get, hreq, hdo]
  · intro url queryParams requestObj request hreq hadd
    subst hadd
    simp only [Client.post, hreq, hdo]

theorem do_transport_error_witness :
    offlineClient.do sampleLib sampleRequest (.writer bufferWriter) =
      { resp := none, err := some (.Other (ascii "dial tcp: connection refused")),
        responseObj := .writer bufferWriter } ∧
    offlineClient.get sampleLib (ascii "/accounts") [] (.value (ascii "old")) =
      .ret { resp := none, err := some (.Other (ascii "dial tcp: connection refused")),
             responseObj := .value (ascii "old") } ∧
    offlineClient.post sampleLib (ascii "/transfers") [] none (.value (ascii "old")) =
      .ret { resp := none, err := some (.Other (ascii "dial tcp: connection refused")),
             responseObj := .value (ascii "old") } :=
  ⟨(do_transport_error sampleLib offlineClient sampleRequest (.writer bufferWriter) _ rfl).1,
   (do_transport_error sampleLib offlineClient
      { Method := ascii "GET", URL := ⟨[], [], ascii "/accounts", [], []⟩,
        Header := [(ascii "Accept", ascii "application/json"), (ascii "customerId", ascii "42")],
        Body := ascii "null" }
      (.value (ascii "old")) _ rfl).2.1 (ascii "/accounts") [] rfl,
   (do_transport_error sampleLib offlineClient
      { Method := ascii "POST", URL := ⟨[], [], ascii "/transfers", [], []⟩,
        Header := [(ascii "Accept", ascii "application/json"), (ascii "customerId", ascii "42"),
                   (ascii "Content-Type", ascii "application/json")],
        Body := ascii "null" }
      (.value (ascii "old")) _ rfl).2.2 (ascii "/transfers") [] none
      { Method := ascii "POST", URL := ⟨[], [], ascii "/transfers", [], []⟩,
        Header := [(ascii "Accept", ascii "application/json"), (ascii "customerId", ascii "42")],
        Body := ascii "null" } rfl rfl⟩

/-- C2: after a successful HTTP call whose body is empty, `do` on a response
object that is neither nil nor a writer returns the response with a nil error
and leaves the object as it was. -/
theorem do_empty_body {Obj α : Type} (lib : Lib Obj α) (c : Client) (req : Request)
    (resp : Response) (v : α) (h : c.client req = .ok resp)
    (hbody : resp.Body = { data := [], err := .EOF }) :
    c.do lib req (.value v) = { resp := some resp, err := none, responseObj := .value v } := by
  have hd : Decode lib.unmarshal resp.Body v = (v, some .EOF) := by
    rw [hbody]; rfl
  simp only [Client.do, h, hd, if_true]

theorem do_empty_body_witness :
    (clientOf []).do sampleLib sampleRequest (.value (ascii "old")) =
      { resp := some { StatusCode := 200, Body := { data := [], err := .EOF } }, err := none,
        responseObj := .value (ascii "old") } :=
  do_empty_body sampleLib (clientOf []) sampleRequest _ (ascii "old") rfl rfl

/-- C3, as stated, fails: a body that is one space is not empty and is not
JSON, the decode step reports `io.EOF` for it, and `do` returns a nil
error. -/
theorem do_whitespace_body_no_error :
    ([32] : GoString) ≠ [] ∧ checkValid [32] ≠ none ∧
    (Decode sampleLib.unmarshal { data := [32], err := .EOF } (ascii "old")).2 = some .EOF ∧
    ((clientOf [32]).do sampleLib sampleRequest (.value (ascii "old"))).err = none := by
  refine ⟨by decide, by decide, rfl, rfl⟩

/-- C3, amended: after a successful HTTP call, with a response object that is
neither nil nor a writer, (1) every error of the decode step other than
`io.EOF` is returned by `do` as it is; (2) when the body holds a byte that is
not white space and no JSON value can be read from it, the error of the decode
step is not `io.EOF`, `do` returns it as it is and the object is left alone;
(3) a body of white space only is treated as the empty body: nil error,
object left alone. -/
theorem do_decode_error {Obj α : Type} (lib : Lib Obj α) (c : Client) (req : Request)
    (resp : Response) (v : α) (h : c.client req = .ok resp) :
    (∀ e, (Decode lib.unmarshal resp.Body v).2 = some e → e ≠ .EOF →
      (c.do lib req (.value v)).err = some e) ∧
    (nonSpace resp.Body.data = true → ∀ e, readValue resp.Body = .error e →
      e ≠ .EOF ∧ (Decode lib.unmarshal resp.Body v).2 = some e ∧
      c.do lib req (.value v) = { resp := some resp, err := some e, responseObj := .value v }) ∧
    (nonSpace resp.Body.data = false → resp.Body.err = .EOF →
      c.do lib req (.value v) = { resp := some resp, err := none, responseObj := .value v }) := by
  refine ⟨?_, ?_, ?_⟩
  · intro e he hne
    have hne2 : ¬ (some e = some GoError.EOF) := by simpa using hne
    simp only [Client.do, h, he, hne2, if_false]
  · intro hns e he
    have hne := readValue_error_ne_EOF resp.Body hns e he
    have hd : Decode lib.unmarshal resp.Body v = (v, some e) := by
      simp only [Decode, he]
    have hne2 : ¬ (some e = some GoError.EOF) := by simpa using hne
    refine ⟨hne, by rw [hd], ?_⟩
    simp only [Client.do, h, hd, hne2, if_false]
  · intro hs herr
    have hb : resp.Body = { data := resp.Body.data, err := .EOF } := by
      cases hB : resp.Body with
      | mk d e => rw [hB] at herr; simp only at herr; rw [herr]
    have hd : Decode lib.unmarshal resp.Body v = (v, some .EOF) := by
      rw [hb]; simp only [Decode, readValue_space _ hs]
    simp only [Client.do, h, hd, if_true]

theorem do_decode_error_witness :
    nonSpace (ascii "\x7b\"items\":") = true ∧
    readValue { data := ascii "\x7b\"items\":", err := .EOF } = .error .ErrUnexpectedEOF ∧
    (clientOf (ascii "\x7b\"items\":")).do sampleLib sampleRequest (.value (ascii "old")) =
      { resp := some { StatusCode := 200, Body := { data := ascii "\x7b\"items\":", err := .EOF } },
        err := some .ErrUnexpectedEOF, responseObj := .value (ascii "old") } :=
  ⟨by decide, rfl,
    ((do_decode_error sampleLib (clientOf (ascii "\x7b\"items\":")) sampleRequest _ (ascii "old")
      rfl).2.1 (by decide) .ErrUnexpectedEOF rfl).2.2⟩

/-- C10, at a request object that cannot be marshalled and at a URL that does
not parse: `getRequest` returns no request and an error, and `post` adds its
header to the absent request, which is a nil dereference, instead of
returning that error. -/
theorem post_panics_without_request :
    (clientOf []).getRequest sampleLib (ascii "/transfers") (ascii "POST") [] (some ())
        (.value (ascii "old")) =
      (none, some (.Other (ascii "json: unsupported type: chan int"))) ∧
    (clientOf []).post sampleLib (ascii "/transfers") [] (some ()) (.value (ascii "old")) = .panic ∧
    (clientOf []).getRequest sampleLib [47, 127] (ascii "POST") [] none (.value (ascii "old")) =
      (none, some (.Other (ascii "net/url: invalid control character in URL"))) ∧
    (clientOf []).post sampleLib [47, 127] [] none (.value (ascii "old")) = .panic :=
  ⟨rfl, rfl, rfl, rfl⟩

/-! ## The accounts repository and the token provider -/

/-- C1: when the client delivers a body and the decoded envelope has
`IsError = true` and `ErrorMessage = m`, `GetAccounts` and `GetAccount` return
a non-nil error whose message is `m`, whatever else was decoded and whether or
not the decoding reported an error. -/
theorem isError_gives_errorMessage (ar : accountsRepository) (m : GoString) :
    (∀ unmarshal customerId response,
      ar.client.Get (ar.url ++ customerId) [] = (response, none) →
      (Unmarshal unmarshal response accountsResponse.zero).1.IsError = true →
      (Unmarshal unmarshal response accountsResponse.zero).1.ErrorMessage = m →
      ∃ e, (ar.GetAccounts unmarshal customerId).2 = some e ∧ e.Error = m) ∧
    (∀ unmarshal customerId accountNumber response,
      ar.client.Get (ar.url ++ customerId ++ ascii "/" ++ accountNumber) [] = (response, none) →
      (Unmarshal unmarshal response accountResponse.zero).1.IsError = true →
      (Unmarshal unmarshal response accountResponse.zero).1.ErrorMessage = m →
      ∃ e, (ar.GetAccount unmarshal customerId accountNumber).2 = some e ∧ e.Error = m) := by
  constructor
  · intro unmarshal customerId response hget herr hmsg
    refine ⟨errorsNew m, ?_, rfl⟩
    simp only [accountsRepository.GetAccounts, hget, herr, hmsg, if_true]
  · intro unmarshal customerId accountNumber response hget herr hmsg
    refine ⟨errorsNew m, ?_, rfl⟩
    simp only [accountsRepository.GetAccount, hget, herr, hmsg, if_true]

theorem isError_gives_errorMessage_witness :
    (Unmarshal accountsStore
        (ascii "\x7b\"availableItems\":\"many\",\"isError\":true,\"errorMessage\":\"insufficient funds\"\x7d")
        accountsResponse.zero).2 ≠ none ∧
    (∃ e, ((repositoryOf
        (ascii "\x7b\"availableItems\":\"many\",\"isError\":true,\"errorMessage\":\"insufficient funds\"\x7d")).GetAccounts
          accountsStore (ascii "42")).2 = some e ∧ e.Error = ascii "insufficient funds") ∧
    (∃ e, ((repositoryOf (ascii "\x7b\"isError\":true,\"errorMessage\":\"insufficient funds\"\x7d")).GetAccount
          accountStore (ascii "42") (ascii "1234")).2 = some e ∧
        e.Error = ascii "insufficient funds") :=
  ⟨by decide,
   (isError_gives_errorMessage (repositoryOf _) (ascii "insufficient funds")).1 accountsStore
      (ascii "42") _ rfl rfl rfl,
   (isError_gives_errorMessage (repositoryOf _) (ascii "insufficient funds")).2 accountStore
      (ascii "42") (ascii "1234") _ rfl rfl rfl⟩

/-- C4, at an identity server that answers `not json`: the body is not JSON,
`json.Unmarshal` reports it, `callIdentityServer` drops that error and returns
the zero response, and `NewSbankenToken` returns a token with an empty token
string that expires at once; nothing exits. -/
theorem callIdentityServer_returns_on_decode_error
    (unmarshal : GoString → sbankenTokenResponse → sbankenTokenResponse × Option GoError) :
    (Unmarshal unmarshal (ascii "not json") sbankenTokenResponse.zero).2 ≠ none ∧
    callIdentityServer { parse := sampleParse, Do := serve (ascii "not json"), unmarshal := unmarshal }
        (ascii "https://id.example/token") (ascii "id") (ascii "secret") =
      .ret { AccessToken := [], TokenType := [], ExpiresIn := 0 } ∧
    NewSbankenToken { parse := sampleParse, Do := serve (ascii "not json"), unmarshal := unmarshal }
        sampleNow (ascii "https://id.example/token") (ascii "id") (ascii "secret") =
      .ret { tokenString := [], validTo := sampleNow, tokenType := [],
             identityServer := ascii "https://id.example/token", clientId := ascii "id",
             clientSecret := ascii "secret" } := by
  have hv : checkValid (ascii "not json") =
      some (.SyntaxError (ascii "invalid character 'o' in literal null (expecting 'u')") 2) := by
    rfl
  have hu : Unmarshal unmarshal (ascii "not json") sbankenTokenResponse.zero =
      (sbankenTokenResponse.zero, some (.SyntaxError
        (ascii "invalid character 'o' in literal null (expecting 'u')") 2)) := by
    simp only [Unmarshal, hv]
  have hc : callIdentityServer
      { parse := sampleParse, Do := serve (ascii "not json"), unmarshal := unmarshal }
      (ascii "https://id.example/token") (ascii "id") (ascii "secret") =
      .ret sbankenTokenResponse.zero := by
    have hp : NewRequest sampleParse (ascii "POST") (ascii "https://id.example/token")
        (ascii "grant_type=client_credentials") =
        (some { Method := ascii "POST", URL := ⟨ascii "https", ascii "id.example", ascii "/token", [], []⟩,
                Header := [], Body := ascii "grant_type=client_credentials" }, none) := by rfl
    simp only [callIdentityServer, hp, serve, ReadAll, if_true, hu]
  refine ⟨by rw [hu]; simp, hc, ?_⟩
  simp only [NewSbankenToken, hc]
  rfl

/-- Within the range of `int64` the reduction changes nothing. -/
theorem wrap64_of_range (x : Int) (h1 : -9223372036854775808 ≤ x) (h2 : x < 9223372036854775808) :
    wrap64 x = x := by
  unfold wrap64
  norm_num
  omega

/-- Adding a whole number of seconds that fits `int64` nanoseconds to a
reading of the clock moves the seconds and keeps the nanoseconds. -/
theorem Time.Add_seconds (t : Time) (N : Int) (hN1 : -9223372036 ≤ N) (hN2 : N ≤ 9223372036)
    (hn1 : 0 ≤ t.nsec) (hn2 : t.nsec < 1000000000)
    (hs1 : -4611686018427387904 ≤ t.sec) (hs2 : t.sec ≤ 4611686018427387904) :
    t.Add (Duration.mul N Second) = { sec := t.sec + N, nsec := t.nsec } := by
  have hd : Duration.mul N Second = N * 1000000000 := by
    unfold Duration.mul Second
    exact wrap64_of_range _ (by omega) (by omega)
  have hq : Int.tdiv (N * 1000000000) 1000000000 = N := Int.mul_tdiv_cancel N (by decide)
  have hm : Int.tmod (N * 1000000000) 1000000000 = 0 := Int.mul_tmod_left N 1000000000
  have hw : wrap64 (t.sec + N) = t.sec + N := wrap64_of_range _ (by omega) (by omega)
  rw [hd]
  unfold Time.Add
  simp only [hq, hm, add_zero]
  have h1 : ¬ (t.nsec ≥ 1000000000) := by omega
  have h2 : ¬ (t.nsec < 0) := by omega
  simp only [h1, h2, if_false]
  unfold Time.addSec
  simp only [hw]
  have h3 : decide (t.sec + N > t.sec) = decide (N > 0) := by
    congr 1
    apply propext
    constructor <;> intro h <;> omega
  simp only [h3, if_true]

/-- C5, as stated, fails: with `expires_in = 9223372037` the product
`Duration(N) * Second` leaves `int64`, and the expiration time is not the
reading of the clock plus `N` seconds (it lies some 292 years before it). -/
theorem expiration_overflow :
    callIdentityServer
        (identityServerOf
          (ascii "\x7b\"access_token\":\"abc\",\"token_type\":\"Bearer\",\"expires_in\":9223372037\x7d"))
        (ascii "https://id.example/token") (ascii "id") (ascii "secret") =
      .ret { AccessToken := ascii "abc", TokenType := ascii "Bearer", ExpiresIn := 9223372037 } ∧
    (∃ tok, NewSbankenToken
        (identityServerOf
          (ascii "\x7b\"access_token\":\"abc\",\"token_type\":\"Bearer\",\"expires_in\":9223372037\x7d"))
        sampleNow (ascii "https://id.example/token") (ascii "id") (ascii "secret") = .ret tok ∧
      tok.GetExpirationTime = { sec := 54676627963, nsec := 290448884 } ∧
      tok.GetExpirationTime.nanos ≠ sampleNow.nanos + 9223372037 * 1000000000) := by
  refine ⟨rfl, _, rfl, ?_, ?_⟩
  · decide
  · decide

/-- C5, amended: when the identity server's response has `expires_in = N` with
`-9223372036 ≤ N ≤ 9223372036` (so that `N` seconds fit `int64` nanoseconds)
and the clock reads `now` (nanoseconds within the second, seconds within
`±2^62`), the expiration time of the token is `now` plus `N` seconds exactly,
after `NewSbankenToken` and after `RefreshToken`. -/
theorem expiration_is_now_plus_seconds (lib : AuthLib) (now : Time) (r : sbankenTokenResponse)
    (hN1 : -9223372036 ≤ r.ExpiresIn) (hN2 : r.ExpiresIn ≤ 9223372036)
    (hn1 : 0 ≤ now.nsec) (hn2 : now.nsec < 1000000000)
    (hs1 : -4611686018427387904 ≤ now.sec) (hs2 : now.sec ≤ 4611686018427387904) :
    (∀ identityServer clientId clientSecret,
      callIdentityServer lib identityServer clientId clientSecret = .ret r →
      ∃ tok, NewSbankenToken lib now identityServer clientId clientSecret = .ret tok ∧
        tok.GetExpirationTime = { sec := now.sec + r.ExpiresIn, nsec := now.nsec } ∧
        tok.GetExpirationTime.nanos = now.nanos + r.ExpiresIn * 1000000000) ∧
    (∀ sbt : sbankenToken,
      callIdentityServer lib sbt.identityServer sbt.clientId sbt.clientSecret = .ret r →
      ∃ tok, sbt.RefreshToken lib now = .ret tok ∧
        tok.GetExpirationTime = { sec := now.sec + r.ExpiresIn, nsec := now.nsec } ∧
        tok.GetExpirationTime.nanos = now.nanos + r.ExpiresIn * 1000000000) := by
  have hadd := Time.Add_seconds now r.ExpiresIn hN1 hN2 hn1 hn2 hs1 hs2
  have hnanos : Time.nanos { sec := now.sec + r.ExpiresIn, nsec := now.nsec } =
      now.nanos + r.ExpiresIn * 1000000000 := by
    unfold Time.nanos
    simp only
    ring
  constructor
  · intro identityServer clientId clientSecret hc
    refine ⟨{ tokenString := r.AccessToken, validTo := now.Add (Duration.mul r.ExpiresIn Second),
              tokenType := r.TokenType, identityServer := identityServer, clientId := clientId,
              clientSecret := clientSecret }, by simp only [NewSbankenToken, hc], ?_, ?_⟩
    · simp only [sbankenToken.GetExpirationTime, hadd]
    · simp only [sbankenToken.GetExpirationTime, hadd, hnanos]
  · intro sbt hc
    refine ⟨{ sbt with tokenString := r.AccessToken,
                       validTo := now.Add (Duration.mul r.ExpiresIn Second),
                       tokenType := r.TokenType },
      by simp only [sbankenToken.RefreshToken, hc], ?_, ?_⟩
    · simp only [sbankenToken.GetExpirationTime, hadd]
    · simp only [sbankenToken.GetExpirationTime, hadd, hnanos]

theorem expiration_is_now_plus_seconds_witness :
    ∃ tok, NewSbankenToken
        (identityServerOf
          (ascii "\x7b\"access_token\":\"abc\",\"token_type\":\"Bearer\",\"expires_in\":3600\x7d"))
        sampleNow (ascii "https://id.example/token") (ascii "id") (ascii "secret") = .ret tok ∧
      tok.GetExpirationTime = { sec := 63900003600, nsec := 500 } ∧
      tok.GetExpirationTime.nanos = sampleNow.nanos + 3600 * 1000000000 :=
  (expiration_is_now_plus_seconds
    (identityServerOf
      (ascii "\x7b\"access_token\":\"abc\",\"token_type\":\"Bearer\",\"expires_in\":3600\x7d"))
    sampleNow { AccessToken := ascii "abc", TokenType := ascii "Bearer", ExpiresIn := 3600 }
    (by decide) (by decide) (by decide) (by decide) (by decide) (by decide)).1
    (ascii "https://id.example/token") (ascii "id") (ascii "secret") rfl

/-- C9, as stated, fails: for this body the decoding of the account response
reports an error, the envelope has `isError = true`, and `GetAccounts` returns
(the process goes on) with the error built from `errorMessage`; the error of
the decoding is not returned. -/
theorem account_decode_error_replaced :
    (Unmarshal accountsStore
        (ascii "\x7b\"availableItems\":\"many\",\"isError\":true,\"errorMessage\":\"insufficient funds\"\x7d")
        accountsResponse.zero).2 =
      some typeError ∧
    (repositoryOf
        (ascii "\x7b\"availableItems\":\"many\",\"isError\":true,\"errorMessage\":\"insufficient funds\"\x7d")).GetAccounts
        accountsStore (ascii "42") = ([], some (errorsNew (ascii "insufficient funds"))) ∧
    errorsNew (ascii "insufficient funds") ≠
      typeError := by
  refine ⟨rfl, rfl, ?_⟩
  simp [errorsNew, typeError]

/-- C9, amended: a transport error in `do` is returned; an error of the decode
step in `do` other than `io.EOF` is returned; in `callIdentityServer` a failure
to build the request, to perform the call or to read the body ends the process
with `os.Exit(1)`; in `GetAccounts` and `GetAccount` an error of the client is
returned, an error of the decoding is returned when the envelope has
`IsError = false`, and with `IsError = true` the error built from
`ErrorMessage` is returned in its place. -/
theorem errors_surface :
    (∀ (Obj α : Type) (lib : Lib Obj α) (c : Client) (req : Request) (responseObj : Container α)
        (e : GoError), c.client req = .error e → (c.do lib req responseObj).err = some e) ∧
    (∀ (Obj α : Type) (lib : Lib Obj α) (c : Client) (req : Request) (resp : Response) (v : α)
        (e : GoError), c.client req = .ok resp → (Decode lib.unmarshal resp.Body v).2 = some e →
        e ≠ .EOF → (c.do lib req (.value v)).err = some e) ∧
    (∀ (lib : AuthLib) (identityServer clientId clientSecret : GoString),
      (∀ e, (NewRequest lib.parse (ascii "POST") identityServer
              (ascii "grant_type=client_credentials")).2 = some e →
        callIdentityServer lib identityServer clientId clientSecret = .exit 1) ∧
      (∀ request e, NewRequest lib.parse (ascii "POST") identityServer
              (ascii "grant_type=client_credentials") = (some request, none) →
        lib.Do (identityRequest request clientId clientSecret) = .error e →
        callIdentityServer lib identityServer clientId clientSecret = .exit 1) ∧
      (∀ request response e, NewRequest lib.parse (ascii "POST") identityServer
              (ascii "grant_type=client_credentials") = (some request, none) →
        lib.Do (identityRequest request clientId clientSecret) = .ok response →
        (ReadAll response.Body).2 = some e →
        callIdentityServer lib identityServer clientId clientSecret = .exit 1)) ∧
    (∀ (ar : accountsRepository) unmarshal customerId,
      (∀ e, (ar.client.Get (ar.url ++ customerId) []).2 = some e →
        (ar.GetAccounts unmarshal customerId).2 = some e) ∧
      (∀ response, ar.client.Get (ar.url ++ customerId) [] = (response, none) →
        (ar.GetAccounts unmarshal customerId).2 =
          if (Unmarshal unmarshal response accountsResponse.zero).1.IsError = true then
            some (errorsNew (Unmarshal unmarshal response accountsResponse.zero).1.ErrorMessage)
          else (Unmarshal unmarshal response accountsResponse.zero).2)) ∧
    (∀ (ar : accountsRepository) unmarshal customerId accountNumber,
      (∀ e, (ar.client.Get (ar.url ++ customerId ++ ascii "/" ++ accountNumber) []).2 = some e →
        (ar.GetAccount unmarshal customerId accountNumber).2 = some e) ∧
      (∀ response,
        ar.client.Get (ar.url ++ customerId ++ ascii "/" ++ accountNumber) [] = (response, none) →
        (ar.GetAccount unmarshal customerId accountNumber).2 =
          if (Unmarshal unmarshal response accountResponse.zero).1.IsError = true then
            some (errorsNew (Unmarshal unmarshal response accountResponse.zero).1.ErrorMessage)
          else (Unmarshal unmarshal response accountResponse.zero).2)) := by
  refine ⟨?_, ?_, ?_, ?_, ?_⟩
  · intro Obj α lib c req responseObj e h
    simp only [Client.do, h]
  · intro Obj α lib c req resp v e h hd hne
    have hne2 : ¬ (some e = some GoError.EOF) := by simpa using hne
    simp only [Client.do, h, hd, hne2, if_false]
  · intro lib identityServer clientId clientSecret
    refine ⟨?_, ?_, ?_⟩
    · intro e he
      unfold callIdentityServer
      generalize NewRequest lib.parse (ascii "POST") identityServer
        (ascii "grant_type=client_credentials") = r at he
      obtain ⟨r1, r2⟩ := r
      simp only at he
      subst he
      cases r1 <;> rfl
    · intro request e hreq hdo
      simp only [identityRequest] at hdo
      simp only [callIdentityServer, hreq, hdo]
    · intro request response e hreq hdo hread
      simp only [identityRequest] at hdo
      unfold callIdentityServer
      simp only [hreq, hdo]
      generalize ReadAll response.Body = r at hread
      obtain ⟨r1, r2⟩ := r
      simp only at hread
      subst hread
      rfl
  · intro ar unmarshal customerId
    refine ⟨?_, ?_⟩
    · intro e he
      unfold accountsRepository.GetAccounts
      generalize ar.client.Get (ar.url ++ customerId) [] = r at he
      obtain ⟨r1, r2⟩ := r
      simp only at he
      subst he
      rfl
    · intro response hget
      simp only [accountsRepository.GetAccounts, hget]
      split <;> rfl
  · intro ar unmarshal customerId accountNumber
    refine ⟨?_, ?_⟩
    · intro e he
      unfold accountsRepository.GetAccount
      generalize ar.client.Get (ar.url ++ customerId ++ ascii "/" ++ accountNumber) [] = r at he
      obtain ⟨r1, r2⟩ := r
      simp only at he
      subst he
      rfl
    · intro response hget
      simp only [accountsRepository.GetAccount, hget]
      split <;> rfl

theorem errors_surface_witness :
    (repositoryOf (ascii "\x7b\"availableItems\":\"many\"\x7d")).GetAccounts accountsStore (ascii "42") =
      ([], some typeError) ∧
    (offlineRepository.GetAccounts accountsStore (ascii "42")).2 =
      some (.Other (ascii "dial tcp: connection refused")) ∧
    callIdentityServer { parse := sampleParse, Do := refuse, unmarshal := tokenStore }
      (ascii "https://id.example/token") (ascii "id") (ascii "secret") = .exit 1 :=
  ⟨Prod.ext rfl (((errors_surface.2.2.2.1
      (repositoryOf (ascii "\x7b\"availableItems\":\"many\"\x7d")) accountsStore (ascii "42")).2 _ rfl).trans
      rfl),
   (errors_surface.2.2.2.1 offlineRepository accountsStore (ascii "42")).1 _ rfl,
   (errors_surface.2.2.1 { parse := sampleParse, Do := refuse, unmarshal := tokenStore }
      (ascii "https://id.example/token") (ascii "id") (ascii "secret")).2.1 _ _ rfl rfl⟩

/-- In `do`, what `io.Copy` returns is dropped: when the writer fails, `do`
returns a nil error. -/
theorem do_drops_copy_error :
    (ioCopy closedWriter { data := ascii "\x7b\x7d", err := .EOF }).2 =
      some (.Other (ascii "write: file already closed")) ∧
    ((clientOf (ascii "\x7b\x7d")).do sampleLib sampleRequest (.writer closedWriter)).err = none :=
  ⟨rfl, rfl⟩

/-! ## The query string -/

set_option maxRecDepth 100000 in
/-- The two hexadecimal digits written for a byte are read back as that
byte. -/
theorem unhex_upperhex (c : Byte) :
    ishex (upperhex (c.val / 16)) = true ∧ ishex (upperhex (c.val % 16)) = true ∧
    (Fin.ofNat (unhex (upperhex (c.val / 16)) * 16 + unhex (upperhex (c.val % 16))) : Byte) = c := by
  revert c
  decide

set_option maxRecDepth 100000 in
/-- A hexadecimal digit written by `QueryEscape` needs no escape. -/
theorem shouldEscape_upperhex (c : Byte) :
    shouldEscape (upperhex (c.val / 16)) = false ∧ shouldEscape (upperhex (c.val % 16)) = false := by
  revert c
  decide

/-- A byte of an escaped text is `+`, `%`, or a byte that needs no escape. -/
theorem mem_QueryEscape (s : GoString) (b : Byte) (h : b ∈ QueryEscape s) :
    b = 43 ∨ b = 37 ∨ shouldEscape b = false := by
  induction s with
  | nil => simp [QueryEscape] at h
  | cons c rest ih =>
    rw [QueryEscape] at h
    split at h
    · rcases List.mem_cons.1 h with h | h
      · exact Or.inl h
      · exact ih h
    · split at h
      · simp only [List.mem_cons] at h
        rcases h with h | h | h | h
        · exact Or.inr (Or.inl h)
        · exact Or.inr (Or.inr (h ▸ (shouldEscape_upperhex c).1))
        · exact Or.inr (Or.inr (h ▸ (shouldEscape_upperhex c).2))
        · exact ih h
      · rcases List.mem_cons.1 h with h | h
        · subst h
          rename_i h2
          exact Or.inr (Or.inr (by simpa using h2))
        · exact ih h

/-- The separators `&`, `=` and `;` do not occur in an escaped text. -/
theorem sep_not_mem_QueryEscape (s : GoString) :
    (38 : Byte) ∉ QueryEscape s ∧ (61 : Byte) ∉ QueryEscape s ∧ (59 : Byte) ∉ QueryEscape s := by
  refine ⟨fun h => ?_, fun h => ?_, fun h => ?_⟩ <;>
    rcases mem_QueryEscape s _ h with h | h | h <;> revert h <;> decide

theorem QueryUnescape_cons_ne (c : Byte) (rest : GoString) (h : c ≠ 37) :
    QueryUnescape (c :: rest) =
      match QueryUnescape rest with
      | .ok t => .ok ((if c = 43 then 32 else c) :: t)
      | .error e => .error e := by
  cases rest with
  | nil => simp [QueryUnescape, h]
  | cons a rest2 =>
    cases rest2 with
    | nil => rw [QueryUnescape]; simp [h]; intro a1 b rest2 hh; simp at hh
    | cons b rest3 => rw [QueryUnescape]; simp [h]

theorem QueryUnescape_percent (a b : Byte) (rest : GoString) (ha : ishex a = true)
    (hb : ishex b = true) :
    QueryUnescape (37 :: a :: b :: rest) =
      match QueryUnescape rest with
      | .ok t => .ok (Fin.ofNat (unhex a * 16 + unhex b) :: t)
      | .error e => .error e := by
  rw [QueryUnescape]; simp [ha, hb]

/-- Unescaping an escaped text gives the text back. -/
theorem QueryUnescape_QueryEscape (s : GoString) : QueryUnescape (QueryEscape s) = .ok s := by
  induction s with
  | nil => rfl
  | cons c rest ih =>
    rw [QueryEscape]
    split
    · rename_i h
      rw [QueryUnescape_cons_ne _ _ (by decide), ih]
      simp [h]
    · split
      · rw [QueryUnescape_percent _ _ _ (unhex_upperhex c).1 (unhex_upperhex c).2.1, ih]
        simp only [(unhex_upperhex c).2.2]
      · rename_i h1 h2
        have h37 : c ≠ 37 := by
          intro h; subst h; revert h2; decide
        have h43 : c ≠ 43 := by
          intro h; subst h; revert h2; decide
        rw [QueryUnescape_cons_ne _ _ h37, ih]
        simp [h43]

/-- Cutting at a separator that the first part does not hold. -/
theorem Cut_append (sep : Byte) (a b : GoString) (h : sep ∉ a) :
    Cut sep (a ++ sep :: b) = (a, b) := by
  induction a with
  | nil => simp [Cut]
  | cons c rest ih =>
    have hc : c ≠ sep := fun e => h (e ▸ List.mem_cons_self _ _)
    have hr : sep ∉ rest := fun e => h (List.mem_cons_of_mem _ e)
    simp [Cut, hc, ih hr]

/-- Cutting a text without the separator. -/
theorem Cut_none (sep : Byte) (a : GoString) (h : sep ∉ a) : Cut sep a = (a, []) := by
  induction a with
  | nil => simp [Cut]
  | cons c rest ih =>
    have hc : c ≠ sep := fun e => h (e ▸ List.mem_cons_self _ _)
    have hr : sep ∉ rest := fun e => h (List.mem_cons_of_mem _ e)
    simp [Cut, hc, ih hr]

theorem sep_not_mem_encodePair (p : GoString × GoString) :
    (38 : Byte) ∉ encodePair p ∧ (59 : Byte) ∉ encodePair p := by
  have h1 := sep_not_mem_QueryEscape p.1
  have h2 := sep_not_mem_QueryEscape p.2
  simp only [encodePair, List.mem_append, List.mem_singleton, not_or]
  exact ⟨⟨⟨h1.1, by decide⟩, h2.1⟩, ⟨⟨h1.2.2, by decide⟩, h2.2.2⟩⟩

theorem encodePair_ne_nil (p : GoString × GoString) : encodePair p ≠ [] := by
  simp [encodePair]

theorem Cut_encodePair (p : GoString × GoString) :
    Cut 61 (encodePair p) = (QueryEscape p.1, QueryEscape p.2) := by
  unfold encodePair
  rw [List.append_assoc]
  exact Cut_append 61 _ _ (sep_not_mem_QueryEscape p.1).2.1

/-- The first `&` of the joined pairs comes after the first pair. -/
theorem Cut_joinPairs (p : GoString × GoString) (rest : List (GoString × GoString)) :
    Cut 38 (joinPairs (p :: rest)) = (encodePair p, joinPairs rest) := by
  cases rest with
  | nil => exact Cut_none 38 _ (sep_not_mem_encodePair p).1
  | cons q rest => exact Cut_append 38 _ _ (sep_not_mem_encodePair p).1

theorem joinPairs_length (p : GoString × GoString) (rest : List (GoString × GoString)) :
    (joinPairs rest).length < (joinPairs (p :: rest)).length := by
  have h : 0 < (encodePair p).length := List.length_pos.2 (encodePair_ne_nil p)
  cases rest with
  | nil => simpa [joinPairs] using h
  | cons q rest => simp [joinPairs]; omega

/-- Parsing the joined pairs adds them one by one and reports no error. -/
theorem parseQueryLoop_joinPairs (ps : List (GoString × GoString)) (fuel : Nat) (m : Values)
    (err : Option GoError) (hfuel : (joinPairs ps).length ≤ fuel) :
    parseQueryLoop fuel m err (joinPairs ps) = (addAll m ps, err) := by
  induction ps generalizing fuel m with
  | nil =>
    cases fuel with
    | zero => rfl
    | succ f => simp [parseQueryLoop, joinPairs, addAll]
  | cons p rest ih =>
    have hlen := joinPairs_length p rest
    cases fuel with
    | zero => omega
    | succ f =>
      have hne : joinPairs (p :: rest) ≠ [] := by
        intro h; rw [h] at hlen; simp at hlen
      rw [parseQueryLoop]
      simp only [hne, if_false, Cut_joinPairs, (sep_not_mem_encodePair p).2, encodePair_ne_nil,
        Cut_encodePair, QueryUnescape_QueryEscape]
      rw [ih f _ (by omega)]
      simp [addAll]

/-! ## `Values`: `Add`, lookup and the order of the keys -/

/-- The keys after `Add`. -/
theorem mem_keys_Add (v : Values) (k x k' : GoString) :
    k' ∈ (v.Add k x).map Prod.fst ↔ k' = k ∨ k' ∈ v.map Prod.fst := by
  induction v with
  | nil => simp [Values.Add]
  | cons p rest ih =>
    obtain ⟨k0, vs⟩ := p
    unfold Values.Add
    split
    · rename_i h
      subst h
      simp
    · split
      · simp
      · simp only [List.map_cons, List.mem_cons, ih]
        tauto

/-- The method `Add` keeps the keys in order. -/
theorem Add_sorted (v : Values) (k x : GoString) (h : (v.map Prod.fst).Pairwise (· < ·)) :
    ((v.Add k x).map Prod.fst).Pairwise (· < ·) := by
  induction v with
  | nil => simp [Values.Add]
  | cons p rest ih =>
    obtain ⟨k0, vs⟩ := p
    simp only [List.map_cons, List.pairwise_cons] at h
    unfold Values.Add
    split
    · simpa using h
    · split
      · rename_i h1 h2
        simp only [List.map_cons, List.pairwise_cons, List.mem_cons]
        refine ⟨?_, h⟩
        rintro a (rfl | ha)
        · exact h2
        · exact lt_trans h2 (h.1 a ha)
      · rename_i h1 h2
        simp only [List.map_cons, List.pairwise_cons]
        refine ⟨?_, ih h.2⟩
        intro a ha
        rcases (mem_keys_Add rest k x a).1 ha with rfl | ha
        · exact lt_of_le_of_ne (not_lt.1 h2) (Ne.symm h1)
        · exact h.1 a ha

/-- The method `Add` keeps a `Values` well formed. -/
theorem Add_WF (v : Values) (k x : GoString) (h : v.WF) : (v.Add k x).WF := by
  refine ⟨Add_sorted v k x h.1, ?_⟩
  have hne := h.2
  clear h
  induction v with
  | nil => simp [Values.Add]
  | cons p rest ih =>
    obtain ⟨k0, vs⟩ := p
    unfold Values.Add
    split
    · intro q hq
      rcases List.mem_cons.1 hq with rfl | hq
      · simp
      · exact hne q (List.mem_cons_of_mem _ hq)
    · split
      · intro q hq
        rcases List.mem_cons.1 hq with rfl | hq
        · simp
        · exact hne q hq
      · intro q hq
        rcases List.mem_cons.1 hq with rfl | hq
        · exact hne _ (List.mem_cons_self _ _)
        · exact ih (fun q hq => hne q (List.mem_cons_of_mem _ hq)) q hq

theorem addAll_WF (ps : List (GoString × GoString)) (v : Values) (h : v.WF) : (addAll v ps).WF := by
  induction ps generalizing v with
  | nil => exact h
  | cons p rest ih => exact ih _ (Add_WF v p.1 p.2 h)

theorem parseQueryLoop_WF (fuel : Nat) (m : Values) (err : Option GoError) (query : GoString)
    (h : m.WF) : (parseQueryLoop fuel m err query).1.WF := by
  induction fuel generalizing m err query with
  | zero => exact h
  | succ f ih =>
    rw [parseQueryLoop]
    split
    · exact h
    · simp only
      split
      · exact ih _ _ _ h
      · split
        · exact ih _ _ _ h
        · split
          · exact ih _ _ _ h
          · split
            · exact ih _ _ _ h
            · exact ih _ _ _ (Add_WF _ _ _ h)

/-- What `URL.Query` returns is well formed. -/
theorem Query_WF (u : URL) : u.Query.WF :=
  parseQueryLoop_WF _ _ _ _ ⟨List.Pairwise.nil, fun _ h => absurd h (List.not_mem_nil _)⟩

/-- A key that is not among the keys has no values. -/
theorem lookup_of_not_mem (v : Values) (k : GoString) (h : k ∉ v.map Prod.fst) :
    v.lookup k = [] := by
  induction v with
  | nil => rfl
  | cons p rest ih =>
    obtain ⟨k0, vs⟩ := p
    simp only [List.map_cons, List.mem_cons, not_or] at h
    simp [Values.lookup, h.1, ih h.2]

/-- The values of a key after `Add`. -/
theorem lookup_Add (v : Values) (k x k' : GoString) (h : (v.map Prod.fst).Pairwise (· < ·)) :
    (v.Add k x).lookup k' = if k' = k then v.lookup k ++ [x] else v.lookup k' := by
  induction v with
  | nil =>
    by_cases hk : k' = k
    · simp [Values.Add, Values.lookup, hk]
    · simp [Values.Add, Values.lookup, hk]
  | cons p rest ih =>
    obtain ⟨k0, vs⟩ := p
    simp only [List.map_cons, List.pairwise_cons] at h
    unfold Values.Add
    split
    · rename_i h1
      subst h1
      by_cases hk : k' = k
      · simp [Values.lookup, hk]
      · simp [Values.lookup, hk]
    · split
      · rename_i h1 h2
        have hnot : k ∉ ((k0, vs) :: rest).map Prod.fst := by
          simp only [List.map_cons, List.mem_cons, not_or]
          exact ⟨h1, fun hm => absurd (h.1 k hm) (lt_asymm h2)⟩
        by_cases hk : k' = k
        · subst hk
          have hl := lookup_of_not_mem _ _ hnot
          rw [hl]
          simp [Values.lookup]
        · rw [Values.lookup]
          simp [hk]
      · rename_i h1 h2
        by_cases hk0 : k' = k0
        · subst hk0
          have : ¬ (k' = k) := fun e => h1 e.symm
          simp [Values.lookup, this]
        · simp only [Values.lookup, hk0, if_false, ih h.2]
          by_cases hk : k' = k
          · subst hk
            simp [h1]
          · simp [hk]

/-- Every pair that is added is found under its key afterwards. -/
theorem mem_lookup_addAll (ps : List (GoString × GoString)) (v : Values) (h : v.WF)
    (k x : GoString) (hx : (k, x) ∈ ps ∨ x ∈ v.lookup k) : x ∈ (addAll v ps).lookup k := by
  induction ps generalizing v with
  | nil =>
    rcases hx with hx | hx
    · simp at hx
    · exact hx
  | cons p rest ih =>
    refine ih (v.Add p.1 p.2) (Add_WF v p.1 p.2 h) ?_
    rcases hx with hx | hx
    · rcases List.mem_cons.1 hx with rfl | hx
      · right
        rw [lookup_Add _ _ _ _ h.1]
        simp
      · exact Or.inl hx
    · right
      rw [lookup_Add _ _ _ _ h.1]
      split
      · rename_i hk
        subst hk
        exact List.mem_append_left _ hx
      · exact hx

/-- A value found under a key is among the pairs. -/
theorem mem_flat_of_lookup (v : Values) (k x : GoString) (h : x ∈ v.lookup k) :
    (k, x) ∈ v.flat := by
  induction v with
  | nil => simp [Values.lookup] at h
  | cons p rest ih =>
    obtain ⟨k0, vs⟩ := p
    rw [Values.lookup] at h
    rw [Values.flat]
    split at h
    · rename_i hk
      subst hk
      exact List.mem_append_left _ (List.mem_map.2 ⟨x, h, rfl⟩)
    · exact List.mem_append_right _ (ih h)

/-- Two calls of `Add` with different keys can be swapped. -/
theorem Add_comm (v : Values) (k1 x1 k2 x2 : GoString) (hne : k1 ≠ k2) :
    (v.Add k1 x1).Add k2 x2 = (v.Add k2 x2).Add k1 x1 := by
  induction v with
  | nil =>
    rcases lt_trichotomy k1 k2 with h | h | h
    · simp [Values.Add, hne, hne.symm, h, lt_asymm h]
    · exact absurd h hne
    · simp [Values.Add, hne, hne.symm, h, lt_asymm h]
  | cons p rest ih =>
    obtain ⟨k0, vs⟩ := p
    by_cases h10 : k1 = k0
    · subst h10
      by_cases h2 : k2 < k1
      · simp [Values.Add, hne, hne.symm, h2, lt_asymm h2]
      · simp [Values.Add, hne, hne.symm, h2]
    · by_cases h20 : k2 = k0
      · subst h20
        by_cases h1 : k1 < k2
        · simp [Values.Add, hne, hne.symm, h1, lt_asymm h1]
        · simp [Values.Add, hne, hne.symm, h1]
      · by_cases h1 : k1 < k0
        · by_cases h2 : k2 < k0
          · rcases lt_trichotomy k1 k2 with h | h | h
            · simp [Values.Add, hne, hne.symm, h10, h20, h1, h2, h, lt_asymm h]
            · exact absurd h hne
            · simp [Values.Add, hne, hne.symm, h10, h20, h1, h2, h, lt_asymm h]
          · have h12 : k1 < k2 := lt_of_lt_of_le h1 (not_lt.1 h2)
            simp [Values.Add, hne, hne.symm, h10, h20, h1, h2, h12, lt_asymm h12]
        · by_cases h2 : k2 < k0
          · have h21 : k2 < k1 := lt_of_lt_of_le h2 (not_lt.1 h1)
            simp [Values.Add, hne, hne.symm, h10, h20, h1, h2, h21, lt_asymm h21]
          · simp [Values.Add, h10, h20, h1, h2, ih]

/-- Adding the entries of a map gives the same `Values` in whatever order the
entries are visited. -/
theorem addAll_perm (ps ps' : List (GoString × GoString)) (v : Values)
    (hnodup : (ps.map Prod.fst).Nodup) (hperm : ps'.Perm ps) : addAll v ps' = addAll v ps := by
  unfold addAll
  refine (List.Perm.foldl_eq' hperm.symm ?_ v).symm
  intro a ha b hb z
  by_cases hab : a.1 = b.1
  · have : a = b := List.inj_on_of_nodup_map hnodup ha hb hab
    subst this
    rfl
  · exact Add_comm z a.1 a.2 b.1 b.2 hab

/-! ## `Encode` and `ParseQuery` -/

theorem joinPairs_cons (p : GoString × GoString) (ps : List (GoString × GoString)) :
    joinPairs (p :: ps) = encodePair p ++ ps.flatMap (fun q => 38 :: encodePair q) := by
  induction ps generalizing p with
  | nil => simp [joinPairs]
  | cons q rest ih => rw [joinPairs, ih q]; simp [List.flatMap_cons]

/-- Writing pairs to a buffer that is not empty puts `&` before each. -/
theorem foldl_push_ne_nil (ps : List (GoString × GoString)) (buf : GoString) (h : buf ≠ []) :
    ps.foldl (fun b p => (if b.length > 0 then b ++ [38] else b) ++ encodePair p) buf =
      buf ++ ps.flatMap (fun q => 38 :: encodePair q) := by
  induction ps generalizing buf with
  | nil => simp
  | cons p rest ih =>
    have hpos : buf.length > 0 := List.length_pos.2 h
    simp only [List.foldl_cons, hpos, if_true]
    rw [ih _ (by simp)]
    simp [List.flatMap_cons]

/-- Writing pairs to the empty buffer joins them by `&`. -/
theorem foldl_push_nil (ps : List (GoString × GoString)) :
    ps.foldl (fun b p => (if b.length > 0 then b ++ [38] else b) ++ encodePair p) [] =
      joinPairs ps := by
  cases ps with
  | nil => rfl
  | cons p rest =>
    simp only [List.foldl_cons, List.length_nil, gt_iff_lt, lt_self_iff_false, if_false,
      List.nil_append]
    rw [foldl_push_ne_nil rest _ (encodePair_ne_nil p), joinPairs_cons]

theorem encodeKey_eq (k : GoString) (vs : List GoString) (buf : GoString) :
    encodeKey (QueryEscape k) vs buf =
      (vs.map (fun x => (k, x))).foldl
        (fun b p => (if b.length > 0 then b ++ [38] else b) ++ encodePair p) buf := by
  induction vs generalizing buf with
  | nil => rfl
  | cons x xs ih =>
    rw [encodeKey, ih]
    simp [encodePair, List.append_assoc]

theorem encodeKeys_eq (v : Values) (keys : List GoString) (buf : GoString) :
    encodeKeys v keys buf =
      (keys.flatMap (fun k => (v.lookup k).map (fun x => (k, x)))).foldl
        (fun b p => (if b.length > 0 then b ++ [38] else b) ++ encodePair p) buf := by
  induction keys generalizing buf with
  | nil => rfl
  | cons k rest ih =>
    rw [encodeKeys, ih, encodeKey_eq, List.flatMap_cons, List.foldl_append]

/-- With the keys in order, going through the keys and looking each up gives
the pairs. -/
theorem flatMap_lookup (v : Values) (h : (v.map Prod.fst).Pairwise (· < ·)) :
    (v.map Prod.fst).flatMap (fun k => (v.lookup k).map (fun x => (k, x))) = v.flat := by
  induction v with
  | nil => rfl
  | cons p rest ih =>
    obtain ⟨k0, vs⟩ := p
    simp only [List.map_cons, List.pairwise_cons] at h
    rw [List.map_cons, List.flatMap_cons, Values.flat, ← ih h.2]
    congr 1
    · simp [Values.lookup]
    · apply List.flatMap_congr
      intro k hk
      have hne : k ≠ k0 := fun e => absurd (h.1 k hk) (by rw [e]; exact lt_irrefl _)
      simp [Values.lookup, hne]

/-- The method `Encode` on a well-formed `Values` writes its pairs, joined by
`&`. -/
theorem Encode_eq (v : Values) (h : v.WF) : v.Encode = joinPairs v.flat := by
  unfold Values.Encode
  split
  · rename_i h0
    have : v = [] := List.length_eq_zero.1 h0
    subst this
    rfl
  · have hs : (v.map Prod.fst).Sorted (· ≤ ·) := h.1.imp (fun hab => le_of_lt hab)
    rw [List.Sorted.insertionSort_eq hs, encodeKeys_eq, flatMap_lookup v h.1, foldl_push_nil]

theorem Add_new_last (m : Values) (k x : GoString) (h : ∀ k' ∈ m.map Prod.fst, k' < k) :
    m.Add k x = m ++ [(k, [x])] := by
  induction m with
  | nil => rfl
  | cons p rest ih =>
    obtain ⟨k0, vs⟩ := p
    have h0 : k0 < k := h k0 (by simp)
    have hr : ∀ k' ∈ rest.map Prod.fst, k' < k := fun k' hk' => h k' (by simp [hk'])
    simp [Values.Add, ne_of_gt h0, lt_asymm h0, ih hr]

theorem Add_last (m : Values) (k x : GoString) (vs : List GoString)
    (h : ∀ k' ∈ m.map Prod.fst, k' < k) :
    (m ++ [(k, vs)]).Add k x = m ++ [(k, vs ++ [x])] := by
  induction m with
  | nil => simp [Values.Add]
  | cons p rest ih =>
    obtain ⟨k0, vs0⟩ := p
    have h0 : k0 < k := h k0 (by simp)
    have hr : ∀ k' ∈ rest.map Prod.fst, k' < k := fun k' hk' => h k' (by simp [hk'])
    simp [Values.Add, ne_of_gt h0, lt_asymm h0, ih hr]

theorem addAll_group (m : Values) (k : GoString) (vs xs : List GoString)
    (h : ∀ k' ∈ m.map Prod.fst, k' < k) :
    addAll (m ++ [(k, vs)]) (xs.map (fun x => (k, x))) = m ++ [(k, vs ++ xs)] := by
  induction xs generalizing vs with
  | nil => simp [addAll]
  | cons x rest ih =>
    have := ih (vs ++ [x])
    simp only [addAll, List.map_cons, List.foldl_cons] at this ⊢
    rw [Add_last m k x vs h, this]
    simp

theorem addAll_append (v : Values) (ps qs : List (GoString × GoString)) :
    addAll v (ps ++ qs) = addAll (addAll v ps) qs := by
  simp [addAll, List.foldl_append]

/-- Adding the pairs of a well-formed `Values`, in order, builds it again. -/
theorem addAll_flat (v m : Values) (hs : ((m ++ v).map Prod.fst).Pairwise (· < ·))
    (hne : ∀ p ∈ v, p.2 ≠ []) : addAll m v.flat = m ++ v := by
  induction v generalizing m with
  | nil => simp [Values.flat, addAll]
  | cons p rest ih =>
    obtain ⟨k, vs⟩ := p
    have hk : ∀ k' ∈ m.map Prod.fst, k' < k := by
      intro k' hk'
      rw [List.map_append, List.pairwise_append] at hs
      exact hs.2.2 k' hk' k (by simp)
    cases vs with
    | nil => exact absurd rfl (hne (k, []) (List.mem_cons_self _ _))
    | cons x xs =>
      rw [Values.flat, addAll_append, List.map_cons]
      have h1 : addAll m ((k, x) :: xs.map (fun x => (k, x))) = m ++ [(k, x :: xs)] := by
        have := addAll_group m k [x] xs hk
        simp only [addAll, List.foldl_cons] at this ⊢
        rw [Add_new_last m k x hk, this]
        simp
      rw [h1, ih (m ++ [(k, x :: xs)]) (by simpa using hs)
        (fun p hp => hne p (List.mem_cons_of_mem _ hp))]
      simp

/-- Parsing what `Encode` wrote gives the `Values` back, without error. -/
theorem ParseQuery_Encode (v : Values) (h : v.WF) : ParseQuery v.Encode = (v, none) := by
  rw [Encode_eq v h]
  unfold ParseQuery
  rw [parseQueryLoop_joinPairs _ _ _ _ (le_refl _), addAll_flat v [] (by simpa using h.1) h.2]
  simp

/-- The text of a pair is part of the joined pairs. -/
theorem encodePair_infix (ps : List (GoString × GoString)) (p : GoString × GoString)
    (h : p ∈ ps) : encodePair p <:+: joinPairs ps := by
  induction ps with
  | nil => simp at h
  | cons q rest ih =>
    rcases List.mem_cons.1 h with rfl | h
    · rw [joinPairs_cons]
      exact (List.prefix_append _ _).isInfix
    · cases rest with
      | nil => simp at h
      | cons r rest2 =>
        rw [joinPairs]
        obtain ⟨s, t, hst⟩ := ih h
        exact ⟨encodePair q ++ 38 :: s, t, by simp [← hst]⟩

/-- What `getRequest` returns when it returns a request: the new request with
the two headers and the query built from the parsed URL and the map. -/
theorem getRequest_some {Obj α : Type} (lib : Lib Obj α) (c : Client) (url method : GoString)
    (queryParams : List (GoString × GoString)) (requestObj : Option Obj)
    (responseObj : Container α) (request : Request)
    (h : c.getRequest lib url method queryParams requestObj responseObj = (some request, none)) :
    ∃ payload u, Marshal lib.marshal requestObj = .ok payload ∧ lib.parse url = .ok u ∧
      request.URL.RawQuery = (addAll u.Query queryParams).Encode ∧
      ∀ queryParams', addAll u.Query queryParams' = addAll u.Query queryParams →
        c.getRequest lib url method queryParams' requestObj responseObj = (some request, none) := by
  unfold Client.getRequest at h
  cases hm : Marshal lib.marshal requestObj with
  | error e => simp [hm] at h
  | ok payload =>
    cases hp : lib.parse url with
    | error e => simp [hm, NewRequest, hp] at h
    | ok u =>
      simp only [hm, NewRequest, hp, Prod.mk.injEq, Option.some.injEq, and_true] at h
      subst h
      refine ⟨payload, u, rfl, rfl, rfl, ?_⟩
      intro queryParams' hq
      have hq2 : addAll (URL.Query (((Request.mk method u [] payload).HeaderAdd (ascii "Accept")
          (ascii "application/json")).HeaderAdd (ascii "customerId") c.config.CustomerID).URL)
          queryParams' = addAll (URL.Query (((Request.mk method u [] payload).HeaderAdd
          (ascii "Accept") (ascii "application/json")).HeaderAdd (ascii "customerId")
          c.config.CustomerID).URL) queryParams := hq
      unfold Client.getRequest
      simp only [hm, NewRequest, hp, Prod.mk.injEq, Option.some.injEq, and_true]
      rw [hq2]

/-- C7: when `getRequest` returns a request for a map of query parameters
(given by its entries, the keys distinct), the raw query of the request holds
the escaped text `key=value` of every entry; parsing the raw query reports no
error, gives for every entry its value among the values of its key, keeps the
values that the URL had, and encodes to the same raw query again; and
`getRequest` returns the same request for every order in which the entries of
the map are visited. -/
theorem getRequest_query {Obj α : Type} (lib : Lib Obj α) (c : Client) (url method : GoString)
    (queryParams : List (GoString × GoString)) (requestObj : Option Obj)
    (responseObj : Container α) (request : Request)
    (hnodup : (queryParams.map Prod.fst).Nodup)
    (h : c.getRequest lib url method queryParams requestObj responseObj = (some request, none)) :
    (∀ k x, (k, x) ∈ queryParams →
      (QueryEscape k ++ [61] ++ QueryEscape x) <:+: request.URL.RawQuery) ∧
    (ParseQuery request.URL.RawQuery).2 = none ∧
    (∀ k x, (k, x) ∈ queryParams → x ∈ (ParseQuery request.URL.RawQuery).1.lookup k) ∧
    (∀ u, lib.parse url = .ok u → ∀ k x, x ∈ u.Query.lookup k →
      x ∈ (ParseQuery request.URL.RawQuery).1.lookup k) ∧
    (ParseQuery request.URL.RawQuery).1.Encode = request.URL.RawQuery ∧
    (∀ queryParams', queryParams'.Perm queryParams →
      c.getRequest lib url method queryParams' requestObj responseObj = (some request, none)) := by
  obtain ⟨payload, u, hm, hp, hraw, hsame⟩ :=
    getRequest_some lib c url method queryParams requestObj responseObj request h
  have hwf : (addAll u.Query queryParams).WF := addAll_WF _ _ (Query_WF u)
  have hparse := ParseQuery_Encode _ hwf
  rw [← hraw] at hparse
  refine ⟨?_, ?_, ?_, ?_, ?_, ?_⟩
  · intro k x hkx
    have hl := mem_lookup_addAll queryParams u.Query (Query_WF u) k x (Or.inl hkx)
    have hf := mem_flat_of_lookup _ _ _ hl
    have hi := encodePair_infix _ _ hf
    rw [hraw, Encode_eq _ hwf]
    exact hi
  · rw [hparse]
  · intro k x hkx
    rw [hparse]
    exact mem_lookup_addAll queryParams u.Query (Query_WF u) k x (Or.inl hkx)
  · intro u' hp' k x hx
    rw [hp] at hp'
    cases hp'
    rw [hparse]
    exact mem_lookup_addAll queryParams u.Query (Query_WF u) k x (Or.inr hx)
  · rw [hparse, hraw]
  · intro queryParams' hperm
    exact hsame queryParams' (addAll_perm queryParams queryParams' u.Query hnodup hperm)

theorem getRequest_query_witness :
    (clientOf []).getRequest sampleLib (ascii "/accounts?z=9&a=0") (ascii "GET")
        [(ascii "a", ascii "1"), (ascii "b", ascii "2")] none (.value []) =
      (some { Method := ascii "GET",
              URL := ⟨[], [], ascii "/accounts", ascii "a=0&a=1&b=2&z=9", []⟩,
              Header := [(ascii "Accept", ascii "application/json"), (ascii "customerId", ascii "42")],
              Body := ascii "null" }, none) ∧
    ParseQuery (ascii "a=0&a=1&b=2&z=9") =
      ([(ascii "a", [ascii "0", ascii "1"]), (ascii "b", [ascii "2"]), (ascii "z", [ascii "9"])],
       none) ∧
    (clientOf []).getRequest sampleLib (ascii "/accounts?z=9&a=0") (ascii "GET")
        [(ascii "b", ascii "2"), (ascii "a", ascii "1")] none (.value []) =
      (some { Method := ascii "GET",
              URL := ⟨[], [], ascii "/accounts", ascii "a=0&a=1&b=2&z=9", []⟩,
              Header := [(ascii "Accept", ascii "application/json"), (ascii "customerId", ascii "42")],
              Body := ascii "null" }, none) :=
  ⟨rfl, rfl,
   (getRequest_query sampleLib (clientOf []) (ascii "/accounts?z=9&a=0") (ascii "GET")
      [(ascii "a", ascii "1"), (ascii "b", ascii "2")] none (.value []) _ (by decide) rfl).2.2.2.2.2
      [(ascii "b", ascii "2"), (ascii "a", ascii "1")] (List.Perm.swap _ _ _)⟩

end Sbanken
